import Mathlib

/-!
Shallow embedding of the `jobsystem` job scheduler (src/jobsystem.h).

Shared `JobStatePtr` objects are modelled by a `Store`: a list of
`JobState` records indexed by job id (ids are assigned sequentially by
`PushJob`, mirroring the allocation order of `make_shared<JobState>`).
A null `JobStatePtr` is modelled by `none : Option Nat`; an operation
that would dereference a null pointer (or invoke other undefined
behaviour) returns `none` at the outer `Option` level.

Atomics become plain fields (all claims are about the sequential
contract of each operation); `std::atomic<int> m_dependencies` is an
`Int`.  Callables (`JobDelegate`) carry no data relevant to any claim
(they are only invoked on entries returned by the pop path), so queue
entries are represented by their job id alone.
-/

namespace jobsystem

/-- Embedded `JobState`: the five coordination fields plus the debug id.
`m_dependants` holds job ids (the shared handles of dependants). -/
structure JobState where
  m_done : Bool
  m_cancel : Bool
  m_ready : Bool
  m_dependants : List Nat
  m_dependencies : Int
  m_jobId : Nat
deriving DecidableEq

/-- The `JobState` constructor: `m_ready` is stored false explicitly;
the remaining atomics are value-initialized by `std::make_shared`. -/
def JobState.new (id : Nat) : JobState :=
  ⟨false, false, false, [], 0, id⟩

/-- Heap of shared job states, indexed by job id. -/
structure Store where
  jobs : List JobState
deriving DecidableEq

def Store.get (s : Store) (i : Nat) : JobState :=
  s.jobs.getD i (JobState.new 0)

def Store.set (s : Store) (i : Nat) (st : JobState) : Store :=
  ⟨s.jobs.set i st⟩

/-- JobState::SetDone - decrement each dependant's `m_dependencies`,
then store `m_done = true`. -/
def SetDone (s : Store) (i : Nat) : Store :=
  let s1 := (s.get i).m_dependants.foldl
    (fun acc d => acc.set d { acc.get d with m_dependencies := (acc.get d).m_dependencies - 1 }) s
  s1.set i { s1.get i with m_done := true }

/-- JobState::Cancel - store `m_cancel = true`. -/
def Cancel (s : Store) (i : Nat) : Store :=
  s.set i { s.get i with m_cancel := true }

/-- JobState::SetReady - store `m_ready = true` (the condition-variable
broadcast has no effect on the embedded state). -/
def SetReady (s : Store) (i : Nat) : Store :=
  s.set i { s.get i with m_ready := true }

/-- JobState::AddDependant - append `other` to `self`'s dependant list,
then increment `other`'s dependency counter. -/
def AddDependant (s : Store) (self other : Nat) : Store :=
  let s1 := s.set self { s.get self with m_dependants := (s.get self).m_dependants ++ [other] }
  s1.set other { s1.get other with m_dependencies := (s1.get other).m_dependencies + 1 }

/-- JobState::AreDependenciesMet - false when not ready, false when the
counter is strictly positive, true otherwise. -/
def AreDependenciesMet (st : JobState) : Bool :=
  if !st.m_ready then false
  else if st.m_dependencies > 0 then false
  else true

/-- JobState::AwaitingCancellation - relaxed load of `m_cancel`. -/
def AwaitingCancellation (st : JobState) : Bool :=
  st.m_cancel

/-- JobState::IsDone - acquire load of `m_done`. -/
def IsDone (st : JobState) : Bool :=
  st.m_done

/-- JobState::Wait, made explicit about time: `isDone i` is the value the
`IsDone` poll observes on iteration `i`, and `fuel` bounds the number of
loop iterations we are willing to unroll (the C++ loop is unbounded when
`maxWaitMicroseconds = 0`).  The result counts the 10-microsecond sleeps
performed, or `none` if the loop is still running when `fuel` runs out.
`waited` accumulates `waitedMicroseconds` exactly as the source does:
sleep first, then add 10, then compare against the budget. -/
def Wait (isDone : Nat → Bool) (maxWaitMicroseconds : Nat) : Nat → Nat → Nat → Option Nat
  | _, _, 0 => none
  | iter, waited, fuel + 1 =>
    if isDone iter then some iter
    else
      if maxWaitMicroseconds ≠ 0 then
        if waited + 10 > maxWaitMicroseconds then some (iter + 1)
        else Wait isDone maxWaitMicroseconds (iter + 1) (waited + 10) fuel
      else Wait isDone maxWaitMicroseconds (iter + 1) waited fuel

/-- JobSystemWorker::PushJob - make a fresh state, `SetActive` it
(store `m_done = false`), insert the entry at the front of the queue.
Returns (new store, new queue, id of the created state). -/
def PushJob (s : Store) (q : List Nat) : Store × List Nat × Nat :=
  let id := s.jobs.length
  let st := { JobState.new id with m_done := false }
  (⟨s.jobs ++ [st]⟩, id :: q, id)

/-- Result of `PopJobFromQueue`: the updated store, the queue after
erasures, the value of the caller's `job` out-parameter (whose `m_state`
may be null = `none`), the `hasUnsatisfiedDependencies` flag and the
return value. -/
structure PopResult where
  store : Store
  queue : List Nat
  outJob : Option Nat
  hasUnsatisfied : Bool
  found : Bool
deriving DecidableEq

/-- JobSystemWorker::PopJobFromQueue - scan front-to-back.  A candidate
awaiting cancellation triggers `job.m_state->SetDone()` on the caller's
out-parameter entry (none = null pointer dereference) and is erased; a
candidate whose dependencies are met is taken; otherwise the flag is set
and the scan continues. -/
def PopJobFromQueue (s : Store) (q : List Nat) (outJob : Option Nat) (hasUnsat : Bool) :
    Option PopResult :=
  match q with
  | [] => some ⟨s, [], outJob, hasUnsat, false⟩
  | c :: rest =>
    if AwaitingCancellation (s.get c) then
      match outJob with
      | none => none
      | some j => PopJobFromQueue (SetDone s j) rest (some j) hasUnsat
    else if AreDependenciesMet (s.get c) then
      some ⟨s, rest, some c, hasUnsat, true⟩
    else
      (PopJobFromQueue s rest outJob true).map
        (fun r => { r with queue := c :: r.queue })

/-- JobManager state: the store of job states, one id-queue per worker,
and the round-robin cursor. -/
structure Manager where
  store : Store
  queues : List (List Nat)
  nextRoundRobinWorkerIndex : Nat
deriving DecidableEq

/-- JobManager::AddJob - with no workers the state stays null and the
manager is untouched; otherwise push onto the cursor's worker and
advance the cursor modulo the worker count.  (The debug character only
feeds profiling and is not modelled.) -/
def AddJob (m : Manager) : Manager × Option Nat :=
  if m.queues.isEmpty then (m, none)
  else
    let i := m.nextRoundRobinWorkerIndex
    let r := PushJob m.store (m.queues.getD i [])
    ({ store := r.1, queues := m.queues.set i r.2.1,
       nextRoundRobinWorkerIndex := (i + 1) % m.queues.length }, some r.2.2)

/-- One scan iteration of `JobManager::AssistUntilDone`: walk the worker
queues in order with work-stealing disabled (each `PopNextJob` is then
exactly `PopJobFromQueue` on that worker's own queue); the
`foundBusyWorker` flag of the outer loop is threaded through as the
by-reference `hasUnsatisfiedDependencies` argument.  On the first hit
the job is run (`job.m_delegate()` - no modelled effect), `SetDone` and
the scan breaks with the flag forced true. -/
structure ScanResult where
  store : Store
  queues : List (List Nat)
  outJob : Option Nat
  busy : Bool
  found : Bool
deriving DecidableEq

def ScanWorkers (s : Store) (outJob : Option Nat) (busy : Bool) :
    List (List Nat) → Option ScanResult
  | [] => some ⟨s, [], outJob, busy, false⟩
  | q :: rest =>
    match PopJobFromQueue s q outJob busy with
    | none => none
    | some r =>
      if r.found then
        match r.outJob with
        | none => none
        | some j => some ⟨SetDone r.store j, r.queue :: rest, r.outJob, true, true⟩
      else
        (ScanWorkers r.store r.outJob r.hasUnsatisfied rest).map
          (fun t => ⟨t.store, r.queue :: t.queues, t.outJob, t.busy, t.found⟩)

/-- JobManager::AssistUntilDone - repeat scans while `foundBusyWorker`
holds.  The C++ loop is unbounded, so the embedding takes fuel: `none`
means the loop was still running (or a null `m_state` was dereferenced)
when the fuel ran out.  The `JobQueueEntry job` local is declared once
outside the loop, hence the threaded `outJob`. -/
def AssistUntilDone (fuel : Nat) (s : Store) (qs : List (List Nat)) (outJob : Option Nat) :
    Option (Store × List (List Nat)) :=
  match fuel with
  | 0 => none
  | fuel + 1 =>
    match ScanWorkers s outJob false qs with
    | none => none
    | some r =>
      if r.busy then AssistUntilDone fuel r.store r.queues r.outJob
      else some (r.store, r.queues)

/-- JobChainBuilder::Node - group-dependency pointer (a node-pool
index), job handle and group flag.  Null pointers are `none`. -/
structure BNode where
  groupDependency : Option Nat
  job : Option Nat
  isGroup : Bool
deriving DecidableEq

def BNode.new : BNode := ⟨none, none, false⟩

/-- JobChainBuilder state.  The node pool is modelled by its allocated
prefix: `nodes.length` is `m_nextNodeIndex`, and `AllocNode` both
bump-allocates and value-resets the node, so the unallocated tail of
the C++ array is never observable.  The stack holds node-pool indices
(`none` is a null `Node*`, which the constructor can push when the pool
capacity is 0). -/
structure Builder where
  mgr : Manager
  maxJobNodes : Nat
  nodes : List BNode
  stack : List (Option Nat)
  allJobs : List (Option Nat)
  last : Option Nat
  dependency : Option Nat
  failed : Bool
deriving DecidableEq

def getNode (b : Builder) (i : Nat) : BNode :=
  b.nodes.getD i BNode.new

def setNode (b : Builder) (i : Nat) (n : BNode) : Builder :=
  { b with nodes := b.nodes.set i n }

def updStore (b : Builder) (f : Store → Store) : Builder :=
  { b with mgr := { b.mgr with store := f b.mgr.store } }

/-- JobChainBuilder::AllocNode - null when the pool is exhausted,
otherwise the next pool slot, reset to `Node()`. -/
def AllocNode (b : Builder) : Option (Builder × Nat) :=
  if b.maxJobNodes ≤ b.nodes.length then none
  else some ({ b with nodes := b.nodes ++ [BNode.new] }, b.nodes.length)

/-- JobChainBuilder constructor - `Reset()` then push the sentinel
(root) node, which is a null pointer if even that allocation fails. -/
def mkBuilder (mgr : Manager) (maxJobNodes : Nat) : Builder :=
  let b0 : Builder := ⟨mgr, maxJobNodes, [], [], [], none, none, false⟩
  match AllocNode b0 with
  | some (b1, i) => { b1 with stack := b1.stack ++ [some i] }
  | none => { b0 with stack := b0.stack ++ [none] }

/-- JobChainBuilder::Fail - cancel every created job and set the failed
flag.  Dereferencing a null job handle (possible only when the manager
has no workers) is a fault. -/
def cancelAll (s : Store) : List (Option Nat) → Option Store
  | [] => some s
  | none :: _ => none
  | some id :: rest => cancelAll (Cancel s id) rest

def Fail (b : Builder) : Option Builder :=
  (cancelAll b.mgr.store b.allJobs).map
    (fun s => { b with mgr := { b.mgr with store := s }, failed := true })

/-- JobChainBuilder::Failed. -/
def Failed (b : Builder) : Bool :=
  b.failed

/-- JobChainBuilder::Together - allocate a group node, capture the
dependency cursor as its group dependency, create the (empty) join job,
record it, clear the cursor and push the group on the stack.  Pool
exhaustion triggers `Fail`. -/
def Together (b : Builder) : Option Builder :=
  match AllocNode b with
  | none => Fail b
  | some (b1, i) =>
    let r := AddJob b1.mgr
    let b2 := setNode { b1 with mgr := r.1 } i ⟨b1.dependency, r.2, true⟩
    some { b2 with
      allJobs := b2.allJobs ++ [r.2],
      last := some i,
      dependency := none,
      stack := b2.stack ++ [some i] }

/-- JobChainBuilder::Do - read the stack back (UB if the stack is
empty), allocate a node (`Fail` on exhaustion), create the job, then
wire: dependency cursor -> item, and inside a group item -> join plus
captured group dependency -> item.  Each wiring step dereferences job
handles; a null one is a fault. -/
def Do (b : Builder) : Option Builder :=
  match b.stack.getLast? with
  | none => none
  | some owner =>
    match AllocNode b with
    | none => Fail b
    | some (b1, i) =>
      let r := AddJob b1.mgr
      let b2 := setNode { b1 with mgr := r.1 } i { BNode.new with job := r.2 }
      let b3 := { b2 with allJobs := b2.allJobs ++ [r.2] }
      let step1 : Option Builder :=
        match b3.dependency with
        | none => some b3
        | some dn =>
          match (getNode b3 dn).job, r.2 with
          | some dj, some ij => some { updStore b3 (fun s => AddDependant s dj ij) with dependency := none }
          | _, _ => none
      match step1 with
      | none => none
      | some b4 =>
        match owner with
        | none => some { b4 with last := some i }
        | some ow =>
          if (getNode b4 ow).isGroup then
            match r.2, (getNode b4 ow).job with
            | some ij, some oj =>
              let b5 := updStore b4 (fun s => AddDependant s ij oj)
              match (getNode b5 ow).groupDependency with
              | none => some { b5 with last := some i }
              | some gdn =>
                match (getNode b5 gdn).job with
                | none => none
                | some gdj => some { updStore b5 (fun s => AddDependant s gdj ij) with last := some i }
            | _, _ => none
          else some { b4 with last := some i }

/-- JobChainBuilder::Then - promote `m_last` to the dependency cursor;
`m_last` falls back to that node's group dependency. -/
def Then (b : Builder) : Option Builder :=
  some { b with
    dependency := b.last,
    last := match b.last with
            | some dn => (getNode b dn).groupDependency
            | none => none }

/-- JobChainBuilder::Close - if the stack is non-empty, dereference its
back (UB on a null root) and, for a group, promote it to `m_last`;
clear the cursor; pop only when more than the sentinel is present. -/
def Close (b : Builder) : Option Builder :=
  match b.stack.getLast? with
  | none => some { b with dependency := none }
  | some none => none
  | some (some ow) =>
    let b1 := if (getNode b ow).isGroup then { b with last := some ow } else b
    let b2 := { b1 with dependency := none }
    some (if 1 < b2.stack.length then { b2 with stack := b2.stack.dropLast } else b2)

/-- JobChainBuilder::Go - `SetReady` every created job in insertion
order (a null handle is a fault). -/
def readyAll (s : Store) : List (Option Nat) → Option Store
  | [] => some s
  | none :: _ => none
  | some id :: rest => readyAll (SetReady s id) rest

def Go (b : Builder) : Option Builder :=
  (readyAll b.mgr.store b.allJobs).map
    (fun s => { b with mgr := { b.mgr with store := s } })

/-- The fluent calls of the builder, as an op language for quantifying
over builds. -/
inductive BOp where
  | doOp
  | togetherOp
  | thenOp
  | closeOp
deriving DecidableEq

def applyOp (b : Builder) : BOp → Option Builder
  | .doOp => Do b
  | .togetherOp => Together b
  | .thenOp => Then b
  | .closeOp => Close b

def runOps (b : Builder) : List BOp → Option Builder
  | [] => some b
  | op :: ops =>
    match applyOp b op with
    | none => none
    | some b1 => runOps b1 ops

/-- Number of node-pool allocations a list of fluent calls attempts
(`Do` and `Together` allocate; `Then` and `Close` do not). -/
def countAllocs : List BOp → Nat
  | [] => 0
  | .doOp :: ops => countAllocs ops + 1
  | .togetherOp :: ops => countAllocs ops + 1
  | .thenOp :: ops => countAllocs ops
  | .closeOp :: ops => countAllocs ops

/-- A manager created with one worker (empty queue, empty store). -/
def mgr1 : Manager := ⟨⟨[]⟩, [[]], 0⟩

/-- Default values used only to read concrete `Option` results. -/
def builder0 : Builder := ⟨mgr1, 0, [], [], [], none, none, false⟩

def pop0 : PopResult := ⟨⟨[]⟩, [], none, false, false⟩

/-- Store for the cancellation scenario: job 0 is pending cancellation
and has job 1 as its dependant (so job 1 has one outstanding
dependency); job 2 is an unrelated, not-yet-done job that plays the
role of a stale entry left in the caller's `job` local. -/
def c1store : Store :=
  ⟨[⟨false, true, false, [1], 0, 0⟩,
    ⟨false, false, false, [], 1, 1⟩,
    ⟨false, false, false, [], 0, 2⟩]⟩

/-- Result of scanning `c1store`'s queue when the caller's out-entry
holds the stale state 2. -/
def c1popped : PopResult :=
  (PopJobFromQueue c1store [0] (some 2) false).getD pop0

/-- Builder after `Do(A).Then().Do(B).Do(C)` on a one-worker manager
(A, B, C get job ids 0, 1, 2). -/
def c4b : Builder :=
  (runOps (mkBuilder mgr1 8) [.doOp, .thenOp, .doOp, .doOp]).getD builder0

/-- State of job P after `i` group members have been added in the
`Do(P).Then().Together().Do(X1)...Do(Xi)` build: its dependants are the
member jobs (ids 2, 3, ...). -/
def pSt (i : Nat) : JobState :=
  ⟨false, false, false, (List.range i).map (fun j => 2 + j), 0, 0⟩

/-- State of the group's join job after `i` members: `i` outstanding
dependencies. -/
def jSt (i : Nat) : JobState :=
  ⟨false, false, false, [], (i : Int), 1⟩

/-- State of the `j`-th group member: one outstanding dependency (on P)
and the join job as sole dependant. -/
def xSt (j : Nat) : JobState :=
  ⟨false, false, false, [1], 1, 2 + j⟩

/-- Builder state reached from a fresh one-worker builder of capacity
`M` by `Do(P).Then().Together()` followed by `i` `Do`s. -/
def c3mid (M i : Nat) : Builder :=
  ⟨⟨⟨[pSt i, jSt i] ++ (List.range i).map xSt⟩, [(List.range (2 + i)).reverse], 0⟩,
   M,
   [BNode.new, ⟨none, some 0, false⟩, ⟨some 1, some 1, true⟩] ++
     (List.range i).map (fun j => ⟨none, some (2 + j), false⟩),
   [some 0, some 2],
   [some 0, some 1] ++ (List.range i).map (fun j => some (2 + j)),
   some (2 + i), none, false⟩

/-- Builder reached by `Together().Then().Do(X)` plus `Go()` on a
one-worker manager: the join job (id 0) and X (id 1) wait on each
other. -/
def c7cycleB : Builder :=
  ((runOps (mkBuilder mgr1 4) [.togetherOp, .thenOp, .doOp]).bind Go).getD builder0

/-- Every job the builder recorded is a live handle whose state is
cancelled. -/
def jobsCancelled (b : Builder) : Prop :=
  ∀ j ∈ b.allJobs, ∃ id, j = some id ∧ (b.mgr.store.get id).m_cancel = true

/-- Every job the builder recorded is a live handle whose state is not
cancelled. -/
def jobsUncancelled (b : Builder) : Prop :=
  ∀ j ∈ b.allJobs, ∃ id, j = some id ∧ (b.mgr.store.get id).m_cancel = false

/-- Every job the builder recorded is a live handle whose state is
ready. -/
def jobsReady (b : Builder) : Prop :=
  ∀ j ∈ b.allJobs, ∃ id, j = some id ∧ (b.mgr.store.get id).m_ready = true

/-- No state in the manager's store is cancelled. -/
def storeUncancelled (m : Manager) : Prop :=
  ∀ id, (m.store.get id).m_cancel = false

/-- Bookkeeping invariant of builder states reachable from a fresh
builder of positive capacity over a manager with at least one worker:
the queue list stays non-empty, the recorded jobs are live store
handles, the stack is never empty, its bottom is the root node, every
stack entry is an allocated node whose join job (for groups) is live,
and the dependency/last cursors and captured group dependencies point
at allocated nodes with live jobs. -/
structure Good (b : Builder) : Prop where
  qne : b.mgr.queues ≠ []
  nodes0 : 0 < b.nodes.length
  allOk : ∀ j ∈ b.allJobs, ∃ id, j = some id ∧ id < b.mgr.store.jobs.length
  stackNe : b.stack ≠ []
  stackRoot : b.stack.head? = some (some 0)
  stackOk : ∀ x ∈ b.stack, ∃ n, x = some n ∧ n < b.nodes.length ∧
      ((getNode b n).isGroup = true →
        ∃ id, (getNode b n).job = some id ∧ id < b.mgr.store.jobs.length)
  depOk : ∀ dn, b.dependency = some dn → dn < b.nodes.length ∧
      ∃ id, (getNode b dn).job = some id ∧ id < b.mgr.store.jobs.length
  lastOk : ∀ ln, b.last = some ln → ln < b.nodes.length ∧
      ∃ id, (getNode b ln).job = some id ∧ id < b.mgr.store.jobs.length
  gdepOk : ∀ n, n < b.nodes.length → ∀ g, (getNode b n).groupDependency = some g →
      g < b.nodes.length ∧ ∃ id, (getNode b g).job = some id ∧ id < b.mgr.store.jobs.length

/-- Facts every fluent call guarantees: it succeeds into a `Good`
state, keeps the capacity, never clears the failed flag, never
un-cancels a job, never shrinks the node pool, and once the pool is
exhausted it changes neither the recorded jobs nor the pool. -/
def StepOk (b b' : Builder) : Prop :=
  Good b' ∧ b'.maxJobNodes = b.maxJobNodes ∧
  (b.failed = true → b'.failed = true) ∧
  (∀ id, (b.mgr.store.get id).m_cancel = true → (b'.mgr.store.get id).m_cancel = true) ∧
  b.nodes.length ≤ b'.nodes.length ∧
  (b.maxJobNodes ≤ b.nodes.length → b'.allJobs = b.allJobs ∧ b'.nodes = b.nodes)

/-- Facts that additionally hold while the pool never overflows: the
failed flag and every cancel flag are untouched and exactly `k` nodes
were allocated. -/
def CleanStep (b b' : Builder) (k : Nat) : Prop :=
  b'.failed = b.failed ∧ b'.nodes.length = b.nodes.length + k ∧
  (∀ id, (b'.mgr.store.get id).m_cancel = (b.mgr.store.get id).m_cancel)

/-- Characterization of the builder state during
`Do(P).Then().Together().Do(X1)...Do(Xi)` on a one-worker manager with
capacity `M`: P is job 0 (dependants: the `i` members so far), the join
job is job 1 (`i` outstanding dependencies), member `Xj` is job `2+j`
(one outstanding dependency, the join as sole dependant); node 1 is P's
node, node 2 the open group (cursor P captured, join job attached) and
it sits on top of the root on the stack; the dependency cursor is
clear. -/
def C3Inv (M i : Nat) (b : Builder) : Prop :=
  b.maxJobNodes = M ∧
  b.mgr.store.jobs.length = 2 + i ∧
  b.mgr.store.get 0 = pSt i ∧
  b.mgr.store.get 1 = jSt i ∧
  (∀ j, j < i → b.mgr.store.get (2 + j) = xSt j) ∧
  b.mgr.queues ≠ [] ∧
  b.nodes.length = 3 + i ∧
  b.stack = [some 0, some 2] ∧
  getNode b 1 = ⟨none, some 0, false⟩ ∧
  getNode b 2 = ⟨some 1, some 1, true⟩ ∧
  b.dependency = none ∧
  b.failed = false

/-- C5: `PushJob` returns a newly created state with `ready`, `done`
and `cancel` all false and a zero dependency counter, and inserts the
new entry at the front of the worker's queue. -/
theorem c5_pushJob_fresh_state_front_insert (s : Store) (q : List Nat) :
    (PushJob s q).2.1 = (PushJob s q).2.2 :: q ∧
    ((PushJob s q).1.get (PushJob s q).2.2).m_ready = false ∧
    ((PushJob s q).1.get (PushJob s q).2.2).m_done = false ∧
    ((PushJob s q).1.get (PushJob s q).2.2).m_cancel = false ∧
    ((PushJob s q).1.get (PushJob s q).2.2).m_dependencies = 0 := by
  refine ⟨rfl, ?_, ?_, ?_, ?_⟩ <;>
    simp [PushJob, Store.get, List.getD_append_right, JobState.new]

/-- C6 counterexample: on a state that is ready with dependency counter
`-1`, `AreDependenciesMet` returns `true`, although the claim demands
`false` for every non-zero (in particular negative) counter value. -/
theorem c6_counterexample_negative_counter :
    AreDependenciesMet ⟨false, false, true, [], -1, 0⟩ = true ∧
    (JobState.m_dependencies ⟨false, false, true, [], -1, 0⟩ ≠ 0) := by
  decide

/-- C6 amended: `AreDependenciesMet` returns true iff the ready flag is
set and the dependency counter is non-positive (the code only rejects
strictly positive counters). -/
theorem c6_amended_areDependenciesMet_iff (st : JobState) :
    AreDependenciesMet st = true ↔ st.m_ready = true ∧ st.m_dependencies ≤ 0 := by
  unfold AreDependenciesMet
  by_cases h : st.m_ready <;> simp [h]

/-- C9: with no workers, `AddJob` returns the untouched manager (the
round-robin cursor in particular keeps its value) and a null state;
with at least one worker it returns a job and advances the cursor by
one modulo the worker count. -/
theorem c9_addJob_cursor (m : Manager) :
    (m.queues = [] → AddJob m = (m, none)) ∧
    (m.queues ≠ [] →
      (AddJob m).2.isSome = true ∧
      (AddJob m).1.nextRoundRobinWorkerIndex =
        (m.nextRoundRobinWorkerIndex + 1) % m.queues.length ∧
      (AddJob m).1.queues.length = m.queues.length) := by
  constructor
  · intro h
    simp [AddJob, h]
  · intro h
    have he : m.queues.isEmpty = false := by simpa [List.isEmpty_iff] using h
    refine ⟨?_, ?_, ?_⟩ <;> simp [AddJob, he]

/-- C9 witness: a manager with no workers keeps cursor value 7; the
one-worker manager advances its cursor to `(0 + 1) % 1`. -/
theorem c9_addJob_cursor_witness :
    AddJob ⟨⟨[]⟩, [], 7⟩ = (⟨⟨[]⟩, [], 7⟩, none) ∧
    (AddJob mgr1).1.nextRoundRobinWorkerIndex = (0 + 1) % 1 :=
  ⟨(c9_addJob_cursor ⟨⟨[]⟩, [], 7⟩).1 rfl,
   ((c9_addJob_cursor mgr1).2 (by simp [mgr1])).2.1⟩

/-- Helper: the `Wait` loop with a non-zero budget `m` returns within
the fuel bound, having slept at most one 10-microsecond step past the
budget, from any loop state where `waited` counts the sleeps so far. -/
theorem wait_total (isDone : Nat → Bool) (m : Nat) (hm : m ≠ 0) :
    ∀ fuel iter waited, waited = 10 * iter → waited ≤ m → m < waited + 10 * fuel →
    ∃ k, Wait isDone m iter waited fuel = some k ∧ 10 * k ≤ m + 10 := by
  intro fuel
  induction fuel with
  | zero => intro iter waited _ h1 h2 ; omega
  | succ fuel ih =>
    intro iter waited hw h1 h2
    unfold Wait
    by_cases hd : isDone iter
    · exact ⟨iter, by simp [hd], by omega⟩
    · simp only [hd, if_false, hm, ne_eq, not_false_eq_true, if_true]
      by_cases hb : waited + 10 > m
      · exact ⟨iter + 1, by simp [hb], by omega⟩
      · simpa [hb] using ih (iter + 1) (waited + 10) (by omega) (by omega) (by omega)

/-- C8: with a positive budget `m`, the `Wait` loop terminates within
`m / 10 + 1` iterations whatever the polled `done` values are, sleeping
at most one 10-microsecond step beyond the budget (the return is
normal, not an error); and `Wait` with budget 0 on an already-done job
returns immediately, with zero sleeps. -/
theorem c8_wait_budget_and_immediate_return (isDone : Nat → Bool) (m : Nat) :
    (0 < m → ∃ k, Wait isDone m 0 0 (m / 10 + 1) = some k ∧ 10 * k ≤ m + 10) ∧
    (isDone 0 = true → ∀ fuel, Wait isDone 0 0 0 (fuel + 1) = some 0) := by
  constructor
  · intro hm
    exact wait_total isDone m (by omega) (m / 10 + 1) 0 0 rfl (by omega) (by omega)
  · intro hd fuel
    unfold Wait
    simp [hd]

/-- C8 witness: budget 25 with a never-done job terminates in 3 sleeps;
budget 0 with an already-done job returns with 0 sleeps. -/
theorem c8_wait_witness :
    (∃ k, Wait (fun _ => false) 25 0 0 (25 / 10 + 1) = some k ∧ 10 * k ≤ 25 + 10) ∧
    Wait (fun _ => true) 0 0 0 (0 + 1) = some 0 :=
  ⟨(c8_wait_budget_and_immediate_return (fun _ => false) 25).1 (by omega),
   (c8_wait_budget_and_immediate_return (fun _ => true) 0).2 rfl 0⟩

/-- C1: scanning a queue holding one cancelled entry (job 0, which has
job 1 as dependant), `PopJobFromQueue` calls `SetDone` on the caller's
out-parameter entry instead of the cancelled candidate: with the fresh
(null-state) entry of the worker loop this is a null dereference
(`none`); with a stale entry holding state 2 it is state 2 that gets
marked done, while the cancelled job 0 stays not-done and its dependant
keeps its outstanding dependency.  The cancelled entry is erased and
never returned, so its callable is indeed never invoked. -/
theorem c1_cancel_marks_wrong_state :
    PopJobFromQueue c1store [0] none false = none ∧
    (PopJobFromQueue c1store [0] (some 2) false).isSome = true ∧
    c1popped.found = false ∧
    c1popped.queue = [] ∧
    (c1popped.store.get 0).m_done = false ∧
    (c1popped.store.get 1).m_dependencies = 1 ∧
    (c1popped.store.get 2).m_done = true := by
  decide

/-- C4: after `Do(A).Then().Do(B)` on a fresh top-level builder, A's
state (id 0) lists B (id 1) as its only dependant and B's dependency
counter is 1; the dependency cursor is cleared, so the following
`Do(C)` (id 2) gets no predecessor: C's counter is 0 and no state lists
C as a dependant. -/
theorem c4_then_registers_once_and_clears_cursor :
    (runOps (mkBuilder mgr1 8) [.doOp, .thenOp, .doOp, .doOp]).isSome = true ∧
    c4b.mgr.store.jobs.length = 3 ∧
    (c4b.mgr.store.get 0).m_dependants = [1] ∧
    (c4b.mgr.store.get 1).m_dependencies = 1 ∧
    (c4b.mgr.store.get 1).m_dependants = [] ∧
    (c4b.mgr.store.get 2).m_dependencies = 0 ∧
    (c4b.mgr.store.get 2).m_dependants = [] := by
  decide

theorem getD_set_update {α : Type} (l : List α) (i j : Nat) (v d : α) :
    (l.set i v).getD j d = if i = j ∧ i < l.length then v else l.getD j d := by
  by_cases h1 : i = j
  · subst h1
    by_cases h2 : i < l.length
    · simp [List.getD_eq_getElem?_getD, List.getElem?_set, h2]
    · rw [List.set_eq_of_length_le (by omega)]
      simp [h2]
  · simp [List.getD_eq_getElem?_getD, List.getElem?_set, h1]

theorem getD_append_update {α : Type} (l1 l2 : List α) (j : Nat) (d : α) :
    (l1 ++ l2).getD j d = if j < l1.length then l1.getD j d else l2.getD (j - l1.length) d := by
  by_cases h : j < l1.length
  · rw [if_pos h, List.getD_append _ _ _ _ h]
  · rw [if_neg h, List.getD_append_right _ _ _ _ (by omega)]

theorem Store.get_update (s : Store) (i j : Nat) (st : JobState) :
    (s.set i st).get j = if i = j ∧ i < s.jobs.length then st else s.get j := by
  show (s.jobs.set i st).getD j (JobState.new 0) = _
  rw [getD_set_update]
  rfl

theorem Store.length_set (s : Store) (i : Nat) (st : JobState) :
    (s.set i st).jobs.length = s.jobs.length := by
  simp [Store.set]

theorem Store.get_default (s : Store) (j : Nat) (h : s.jobs.length ≤ j) :
    s.get j = JobState.new 0 := by
  show s.jobs.getD j (JobState.new 0) = _
  rw [List.getD_eq_default _ _ h]

theorem Cancel_length (s : Store) (i : Nat) :
    (Cancel s i).jobs.length = s.jobs.length := by
  simp [Cancel, Store.length_set]

theorem get_Cancel (s : Store) (i j : Nat) :
    (Cancel s i).get j =
      if i = j ∧ i < s.jobs.length then { s.get i with m_cancel := true } else s.get j := by
  rw [Cancel, Store.get_update]

theorem Cancel_cancel_mono (s : Store) (i j : Nat)
    (h : (s.get j).m_cancel = true) : ((Cancel s i).get j).m_cancel = true := by
  rw [get_Cancel]
  split <;> simp_all

theorem Cancel_cancel_self (s : Store) (i : Nat) (h : i < s.jobs.length) :
    ((Cancel s i).get i).m_cancel = true := by
  rw [get_Cancel]
  simp [h]

theorem SetReady_length (s : Store) (i : Nat) :
    (SetReady s i).jobs.length = s.jobs.length := by
  simp [SetReady, Store.length_set]

theorem get_SetReady (s : Store) (i j : Nat) :
    (SetReady s i).get j =
      if i = j ∧ i < s.jobs.length then { s.get i with m_ready := true } else s.get j := by
  rw [SetReady, Store.get_update]

theorem SetReady_ready_mono (s : Store) (i j : Nat)
    (h : (s.get j).m_ready = true) : ((SetReady s i).get j).m_ready = true := by
  rw [get_SetReady]
  split <;> simp_all

theorem SetReady_ready_self (s : Store) (i : Nat) (h : i < s.jobs.length) :
    ((SetReady s i).get i).m_ready = true := by
  rw [get_SetReady]
  simp [h]

theorem AddDependant_length (s : Store) (a bn : Nat) :
    (AddDependant s a bn).jobs.length = s.jobs.length := by
  simp [AddDependant, Store.length_set]

theorem set_preserves_cancel (t : Store) (i : Nat) (st : JobState)
    (hst : st.m_cancel = (t.get i).m_cancel) (k : Nat) :
    ((t.set i st).get k).m_cancel = (t.get k).m_cancel := by
  rw [Store.get_update]
  split
  · rename_i hc
    rw [hst, hc.1]
  · rfl

theorem set_preserves_ready (t : Store) (i : Nat) (st : JobState)
    (hst : st.m_ready = (t.get i).m_ready) (k : Nat) :
    ((t.set i st).get k).m_ready = (t.get k).m_ready := by
  rw [Store.get_update]
  split
  · rename_i hc
    rw [hst, hc.1]
  · rfl

theorem AddDependant_cancel (s : Store) (a bn j : Nat) :
    ((AddDependant s a bn).get j).m_cancel = (s.get j).m_cancel := by
  have h2 := set_preserves_cancel s a
    { s.get a with m_dependants := (s.get a).m_dependants ++ [bn] } rfl j
  have h1 := set_preserves_cancel
    (s.set a { s.get a with m_dependants := (s.get a).m_dependants ++ [bn] }) bn
    { (s.set a { s.get a with m_dependants := (s.get a).m_dependants ++ [bn] }).get bn with
      m_dependencies :=
        ((s.set a { s.get a with m_dependants := (s.get a).m_dependants ++ [bn] }).get bn).m_dependencies + 1 }
    rfl j
  exact h1.trans h2

theorem AddJob_spec (m : Manager) (h : m.queues ≠ []) :
    (AddJob m).2 = some m.store.jobs.length ∧
    (AddJob m).1.store.jobs = m.store.jobs ++ [JobState.new m.store.jobs.length] ∧
    (AddJob m).1.queues.length = m.queues.length ∧
    (AddJob m).1.queues ≠ [] := by
  have he : m.queues.isEmpty = false := by simpa [List.isEmpty_iff] using h
  refine ⟨by simp [AddJob, he, PushJob],
    by simp [AddJob, he, PushJob, JobState.new], ?_, ?_⟩
  · simp [AddJob, he]
  · simp only [AddJob, he, Bool.false_eq_true, if_false]
    intro hc
    have := congrArg List.length hc
    simp at this
    exact h this

theorem AddJob_store_get_lt (m : Manager) (h : m.queues ≠ []) (j : Nat)
    (hj : j < m.store.jobs.length) : (AddJob m).1.store.get j = m.store.get j := by
  show (AddJob m).1.store.jobs.getD j (JobState.new 0) = m.store.jobs.getD j (JobState.new 0)
  rw [(AddJob_spec m h).2.1, List.getD_append _ _ _ _ hj]

theorem AddJob_store_get_new (m : Manager) (h : m.queues ≠ []) :
    (AddJob m).1.store.get m.store.jobs.length = JobState.new m.store.jobs.length := by
  show (AddJob m).1.store.jobs.getD m.store.jobs.length (JobState.new 0) = _
  rw [(AddJob_spec m h).2.1, List.getD_append_right _ _ _ _ (le_refl _)]
  simp

theorem AddJob_store_length (m : Manager) (h : m.queues ≠ []) :
    (AddJob m).1.store.jobs.length = m.store.jobs.length + 1 := by
  have := (AddJob_spec m h).2.1
  simp [this]

theorem AddJob_cancel (m : Manager) (h : m.queues ≠ []) (j : Nat) :
    ((AddJob m).1.store.get j).m_cancel = (m.store.get j).m_cancel := by
  rcases Nat.lt_trichotomy j m.store.jobs.length with hj | hj | hj
  · rw [AddJob_store_get_lt m h j hj]
  · subst hj
    rw [AddJob_store_get_new m h, Store.get_default m.store _ (le_refl _)]
    rfl
  · rw [Store.get_default _ j (by rw [AddJob_store_length m h] ; omega),
      Store.get_default m.store j (by omega)]

theorem SetReady_cancel (s : Store) (i j : Nat) :
    ((SetReady s i).get j).m_cancel = (s.get j).m_cancel :=
  set_preserves_cancel s i { s.get i with m_ready := true } rfl j

theorem exists_getLast {α : Type} (l : List α) (h : l ≠ []) :
    ∃ x, l.getLast? = some x := by
  cases hl : l.getLast? with
  | some x => exact ⟨x, rfl⟩
  | none => exact absurd (List.getLast?_eq_none_iff.mp hl) h

theorem head?_dropLast {α : Type} (l : List α) (h : 1 < l.length) :
    l.dropLast.head? = l.head? := by
  match l with
  | [] => simp at h
  | [a] => simp at h
  | a :: b :: t => simp

theorem getD_snoc_set_lt {α : Type} (l : List α) (x v d : α) (j : Nat) (hj : j < l.length) :
    ((l ++ [x]).set l.length v).getD j d = l.getD j d := by
  rw [List.set_append_right _ _ (le_refl _), Nat.sub_self]
  exact List.getD_append _ _ _ _ hj

theorem getD_snoc_set_self {α : Type} (l : List α) (x v d : α) :
    ((l ++ [x]).set l.length v).getD l.length d = v := by
  rw [List.set_append_right _ _ (le_refl _), Nat.sub_self,
    List.getD_append_right _ _ _ _ (le_refl _), Nat.sub_self]
  rfl

theorem cancelAll_spec (js : List (Option Nat)) :
    ∀ s : Store, (∀ j ∈ js, ∃ id, j = some id ∧ id < s.jobs.length) →
      ∃ s', cancelAll s js = some s' ∧
        s'.jobs.length = s.jobs.length ∧
        (∀ id, (s.get id).m_cancel = true → (s'.get id).m_cancel = true) ∧
        (∀ j ∈ js, ∃ id, j = some id ∧ (s'.get id).m_cancel = true) := by
  induction js with
  | nil =>
    intro s _
    exact ⟨s, rfl, rfl, fun _ h => h, by simp⟩
  | cons j rest ih =>
    intro s h
    obtain ⟨id, rfl, hid⟩ := h j (by simp)
    obtain ⟨s', hrun, hlen, hmono, hall⟩ := ih (Cancel s id) (by
      intro x hx
      obtain ⟨id2, rfl, hid2⟩ := h x (by simp [hx])
      exact ⟨id2, rfl, by rw [Cancel_length] ; exact hid2⟩)
    refine ⟨s', hrun, by rw [hlen, Cancel_length], ?_, ?_⟩
    · intro k hk
      exact hmono k (Cancel_cancel_mono s id k hk)
    · intro x hx
      rcases List.mem_cons.mp hx with hx1 | hx2
      · subst hx1
        exact ⟨id, rfl, hmono id (Cancel_cancel_self s id hid)⟩
      · exact hall x hx2

theorem readyAll_spec (js : List (Option Nat)) :
    ∀ s : Store, (∀ j ∈ js, ∃ id, j = some id ∧ id < s.jobs.length) →
      ∃ s', readyAll s js = some s' ∧
        s'.jobs.length = s.jobs.length ∧
        (∀ id, (s.get id).m_ready = true → (s'.get id).m_ready = true) ∧
        (∀ id, (s'.get id).m_cancel = (s.get id).m_cancel) ∧
        (∀ j ∈ js, ∃ id, j = some id ∧ (s'.get id).m_ready = true) := by
  induction js with
  | nil =>
    intro s _
    exact ⟨s, rfl, rfl, fun _ h => h, fun _ => rfl, by simp⟩
  | cons j rest ih =>
    intro s h
    obtain ⟨id, rfl, hid⟩ := h j (by simp)
    obtain ⟨s', hrun, hlen, hmono, hcan, hall⟩ := ih (SetReady s id) (by
      intro x hx
      obtain ⟨id2, rfl, hid2⟩ := h x (by simp [hx])
      exact ⟨id2, rfl, by rw [SetReady_length] ; exact hid2⟩)
    refine ⟨s', hrun, by rw [hlen, SetReady_length], ?_, ?_, ?_⟩
    · intro k hk
      exact hmono k (SetReady_ready_mono s id k hk)
    · intro k
      rw [hcan k, SetReady_cancel]
    · intro x hx
      rcases List.mem_cons.mp hx with hx1 | hx2
      · subst hx1
        exact ⟨id, rfl, hmono id (SetReady_ready_self s id hid)⟩
      · exact hall x hx2

theorem good_congr (b b' : Builder)
    (hq : b'.mgr.queues = b.mgr.queues)
    (hlen : b'.mgr.store.jobs.length = b.mgr.store.jobs.length)
    (hn : b'.nodes = b.nodes) (hs : b'.stack = b.stack) (ha : b'.allJobs = b.allJobs)
    (hl : b'.last = b.last) (hd : b'.dependency = b.dependency)
    (hG : Good b) : Good b' := by
  have hget : ∀ n, getNode b' n = getNode b n := by
    intro n
    simp [getNode, hn]
  refine ⟨?_, ?_, ?_, ?_, ?_, ?_, ?_, ?_, ?_⟩
  · rw [hq] ; exact hG.qne
  · rw [hn] ; exact hG.nodes0
  · rw [ha, hlen] ; exact hG.allOk
  · rw [hs] ; exact hG.stackNe
  · rw [hs] ; exact hG.stackRoot
  · rw [hs]
    intro x hx
    obtain ⟨n, rfl, h1, h2⟩ := hG.stackOk x hx
    rw [hn]
    refine ⟨n, rfl, h1, ?_⟩
    rw [hget, hlen]
    exact h2
  · rw [hd, hn]
    intro dn hdn
    obtain ⟨h1, id, h2, h3⟩ := hG.depOk dn hdn
    rw [hget, hlen]
    exact ⟨h1, id, h2, h3⟩
  · rw [hl, hn]
    intro ln hln
    obtain ⟨h1, id, h2, h3⟩ := hG.lastOk ln hln
    rw [hget, hlen]
    exact ⟨h1, id, h2, h3⟩
  · rw [hn]
    intro n h1 g
    rw [hget]
    intro h2
    obtain ⟨h3, id, h4, h5⟩ := hG.gdepOk n h1 g h2
    rw [hget, hlen]
    exact ⟨h3, id, h4, h5⟩

theorem Fail_spec (b : Builder)
    (hall : ∀ j ∈ b.allJobs, ∃ id, j = some id ∧ id < b.mgr.store.jobs.length) :
    ∃ b', Fail b = some b' ∧
      b'.mgr.store.jobs.length = b.mgr.store.jobs.length ∧
      b'.mgr.queues = b.mgr.queues ∧
      b'.nodes = b.nodes ∧ b'.stack = b.stack ∧ b'.allJobs = b.allJobs ∧
      b'.last = b.last ∧ b'.dependency = b.dependency ∧
      b'.maxJobNodes = b.maxJobNodes ∧ b'.failed = true ∧
      (∀ id, (b.mgr.store.get id).m_cancel = true → (b'.mgr.store.get id).m_cancel = true) ∧
      jobsCancelled b' := by
  obtain ⟨s', hrun, hlen, hmono, hcanc⟩ := cancelAll_spec b.allJobs b.mgr.store hall
  refine ⟨{ b with mgr := { b.mgr with store := s' }, failed := true },
    ?_, hlen, rfl, rfl, rfl, rfl, rfl, rfl, rfl, rfl, hmono, hcanc⟩
  simp [Fail, hrun]

theorem good_mod_cursors (b : Builder) (hG : Good b) (l' d' : Option Nat)
    (hl' : ∀ ln, l' = some ln → ln < b.nodes.length ∧
      ∃ id, (getNode b ln).job = some id ∧ id < b.mgr.store.jobs.length)
    (hd' : ∀ dn, d' = some dn → dn < b.nodes.length ∧
      ∃ id, (getNode b dn).job = some id ∧ id < b.mgr.store.jobs.length) :
    Good { b with last := l', dependency := d' } :=
  ⟨hG.qne, hG.nodes0, hG.allOk, hG.stackNe, hG.stackRoot, hG.stackOk, hd', hl', hG.gdepOk⟩

theorem good_dropLast (b : Builder) (hG : Good b) (h : 1 < b.stack.length) :
    Good { b with stack := b.stack.dropLast } := by
  refine ⟨hG.qne, hG.nodes0, hG.allOk, ?_, ?_, ?_, hG.depOk, hG.lastOk, hG.gdepOk⟩
  · have hlen : 0 < b.stack.dropLast.length := by rw [List.length_dropLast] ; omega
    exact List.length_pos.mp hlen
  · show b.stack.dropLast.head? = some (some 0)
    rw [head?_dropLast b.stack h]
    exact hG.stackRoot
  · intro x hx
    exact hG.stackOk x (List.IsPrefix.mem hx (List.dropLast_prefix _))

theorem then_spec (b : Builder) (hG : Good b) :
    ∃ b', Then b = some b' ∧ StepOk b b' ∧ CleanStep b b' 0 := by
  refine ⟨_, rfl, ⟨?_, rfl, fun h => h, fun _ h => h, le_refl _, fun _ => ⟨rfl, rfl⟩⟩,
    rfl, rfl, fun _ => rfl⟩
  refine good_mod_cursors b hG _ _ ?_ (fun dn hdn => hG.lastOk dn hdn)
  intro ln hln
  cases hbl : b.last with
  | none =>
    rw [hbl] at hln
    exact absurd hln (by simp)
  | some dn =>
    rw [hbl] at hln
    simp only [] at hln
    obtain ⟨h1, id, h2, h3⟩ := hG.lastOk dn hbl
    exact hG.gdepOk dn h1 ln hln

theorem close_spec (b : Builder) (hG : Good b) :
    ∃ b', Close b = some b' ∧ StepOk b b' ∧ CleanStep b b' 0 := by
  obtain ⟨x, hx⟩ := exists_getLast b.stack hG.stackNe
  have hxmem : x ∈ b.stack := List.mem_of_mem_getLast? (by simp [Option.mem_def, hx])
  obtain ⟨n, rfl, hn1, hn2⟩ := hG.stackOk x hxmem
  by_cases hgr : (getNode b n).isGroup = true
  · by_cases hst : 1 < b.stack.length
    · refine ⟨{ b with last := some n, dependency := none, stack := b.stack.dropLast },
        ?_, ⟨?_, rfl, fun h => h, fun _ h => h, le_refl _, fun _ => ⟨rfl, rfl⟩⟩,
        rfl, rfl, fun _ => rfl⟩
      · simp [Close, hx, hgr, hst]
      · exact good_dropLast { b with last := some n, dependency := none }
          (good_mod_cursors b hG _ _
            (fun ln hln => by cases hln ; exact ⟨hn1, hn2 hgr⟩)
            (fun dn hdn => by cases hdn)) hst
    · refine ⟨{ b with last := some n, dependency := none },
        ?_, ⟨?_, rfl, fun h => h, fun _ h => h, le_refl _, fun _ => ⟨rfl, rfl⟩⟩,
        rfl, rfl, fun _ => rfl⟩
      · simp [Close, hx, hgr, hst]
      · exact good_mod_cursors b hG _ _
          (fun ln hln => by cases hln ; exact ⟨hn1, hn2 hgr⟩)
          (fun dn hdn => by cases hdn)
  · by_cases hst : 1 < b.stack.length
    · refine ⟨{ b with dependency := none, stack := b.stack.dropLast },
        ?_, ⟨?_, rfl, fun h => h, fun _ h => h, le_refl _, fun _ => ⟨rfl, rfl⟩⟩,
        rfl, rfl, fun _ => rfl⟩
      · simp [Close, hx, hgr, hst]
      · exact good_dropLast { b with dependency := none }
          (good_mod_cursors b hG _ _ (fun ln hln => hG.lastOk ln hln)
            (fun dn hdn => by cases hdn)) hst
    · refine ⟨{ b with dependency := none },
        ?_, ⟨?_, rfl, fun h => h, fun _ h => h, le_refl _, fun _ => ⟨rfl, rfl⟩⟩,
        rfl, rfl, fun _ => rfl⟩
      · simp [Close, hx, hgr, hst]
      · exact good_mod_cursors b hG _ _ (fun ln hln => hG.lastOk ln hln)
          (fun dn hdn => by cases hdn)

theorem good_store_addDep (b : Builder) (hG : Good b) (a c : Nat) :
    Good (updStore b (fun s => AddDependant s a c)) :=
  good_congr b (updStore b (fun s => AddDependant s a c)) rfl
    (AddDependant_length b.mgr.store a c) rfl rfl rfl rfl rfl hG

theorem getNode_def (b : Builder) (i : Nat) : getNode b i = b.nodes.getD i BNode.new :=
  rfl

theorem set_snoc {α : Type} (l : List α) (x v : α) :
    (l ++ [x]).set l.length v = l ++ [v] := by
  rw [List.set_append_right _ _ (le_refl _), Nat.sub_self]
  rfl

theorem together_spec (b : Builder) (hG : Good b) :
    ∃ b', Together b = some b' ∧ StepOk b b' ∧
      (b.maxJobNodes ≤ b.nodes.length → b'.failed = true ∧ jobsCancelled b') ∧
      (b.nodes.length < b.maxJobNodes → CleanStep b b' 1) := by
  by_cases hcap : b.maxJobNodes ≤ b.nodes.length
  · obtain ⟨b', hrun, hlen, hq, hn, hs, ha, hl, hd, hm, hf, hmono, hcanc⟩ :=
      Fail_spec b hG.allOk
    refine ⟨b', ?_, ⟨good_congr b b' hq hlen hn hs ha hl hd hG, hm, fun _ => hf, hmono,
        le_of_eq (congrArg List.length hn).symm, fun _ => ⟨ha, hn⟩⟩,
      fun _ => ⟨hf, hcanc⟩, fun h => absurd hcap (by omega)⟩
    have hT : Together b = Fail b := by
      simp [Together, AllocNode, hcap]
    rw [hT]
    exact hrun
  · have hq := hG.qne
    obtain ⟨hAJ2, hAJjobs, hAJqlen, hAJqne⟩ := AddJob_spec b.mgr hq
    have hslen := AddJob_store_length b.mgr hq
    refine ⟨⟨(AddJob b.mgr).1, b.maxJobNodes,
      b.nodes ++ [⟨b.dependency, (AddJob b.mgr).2, true⟩],
      b.stack ++ [some b.nodes.length],
      b.allJobs ++ [(AddJob b.mgr).2],
      some b.nodes.length, none, b.failed⟩,
      ?_, ?_, fun h => absurd h hcap, fun _ => ?_⟩
    · simp [Together, AllocNode, hcap, set_snoc, setNode]
    · refine ⟨⟨hAJqne, ?_, ?_, ?_, ?_, ?_, ?_, ?_, ?_⟩, rfl, fun h => h, ?_, ?_,
        fun h => absurd h hcap⟩
      · simp only [List.length_append, List.length_cons, List.length_nil]
        omega
      · intro j hj
        rcases List.mem_append.mp hj with hj1 | hj2
        · obtain ⟨id, rfl, hid⟩ := hG.allOk j hj1
          exact ⟨id, rfl, by rw [hslen] ; omega⟩
        · exact ⟨b.mgr.store.jobs.length,
            by rw [List.mem_singleton.mp hj2, hAJ2], by rw [hslen] ; omega⟩
      · simp
      · show (b.stack ++ [some b.nodes.length]).head? = some (some 0)
        rw [List.head?_append_of_ne_nil _ hG.stackNe]
        exact hG.stackRoot
      · intro x hx
        rcases List.mem_append.mp hx with hx1 | hx2
        · obtain ⟨n, rfl, h1, h2⟩ := hG.stackOk x hx1
          refine ⟨n, rfl,
            by simp only [List.length_append, List.length_cons, List.length_nil] ; omega, ?_⟩
          simp only [getNode_def]
          rw [List.getD_append _ _ _ _ h1]
          intro hgr
          obtain ⟨id, hid1, hid2⟩ := h2 hgr
          exact ⟨id, hid1, by rw [hslen] ; omega⟩
        · refine ⟨b.nodes.length, List.mem_singleton.mp hx2,
            by simp only [List.length_append, List.length_cons, List.length_nil] ; omega, ?_⟩
          simp only [getNode_def]
          rw [List.getD_append_right _ _ _ _ (le_refl _), Nat.sub_self]
          intro _
          exact ⟨b.mgr.store.jobs.length, by simp [hAJ2], by rw [hslen] ; omega⟩
      · intro dn hdn
        cases hdn
      · intro ln hln
        cases hln
        refine ⟨by simp only [List.length_append, List.length_cons, List.length_nil] ; omega,
          b.mgr.store.jobs.length, ?_, by rw [hslen] ; omega⟩
        simp only [getNode_def]
        rw [List.getD_append_right _ _ _ _ (le_refl _), Nat.sub_self]
        simp [hAJ2]
      · intro n hn g
        simp only [getNode_def]
        simp only [List.length_append, List.length_cons, List.length_nil] at hn
        rcases Nat.lt_or_ge n b.nodes.length with hn1 | hn1
        · rw [List.getD_append _ _ _ _ hn1]
          intro hg
          obtain ⟨h1, id, h2, h3⟩ := hG.gdepOk n hn1 g hg
          refine ⟨by simp only [List.length_append, List.length_cons, List.length_nil] ; omega,
            id, ?_, by rw [hslen] ; omega⟩
          rw [List.getD_append _ _ _ _ h1]
          exact h2
        · have hn1' : n = b.nodes.length := by omega
          subst hn1'
          rw [List.getD_append_right _ _ _ _ (le_refl _), Nat.sub_self]
          intro hg
          obtain ⟨h1, id, h2, h3⟩ := hG.depOk g hg
          refine ⟨by simp only [List.length_append, List.length_cons, List.length_nil] ; omega,
            id, ?_, by rw [hslen] ; omega⟩
          rw [List.getD_append _ _ _ _ h1]
          exact h2
      · intro id h
        show ((AddJob b.mgr).1.store.get id).m_cancel = true
        rw [AddJob_cancel b.mgr hq id]
        exact h
      · simp only [List.length_append, List.length_cons, List.length_nil]
        omega
    · refine ⟨rfl, ?_, fun id => ?_⟩
      · simp only [List.length_append, List.length_cons, List.length_nil]
      · show ((AddJob b.mgr).1.store.get id).m_cancel = _
        exact AddJob_cancel b.mgr hq id

theorem good_do_core (b : Builder) (hG : Good b) (m' : Manager) (jb : Option Nat) (newId : Nat)
    (hq' : m'.queues ≠ [])
    (hlen' : m'.store.jobs.length = b.mgr.store.jobs.length + 1)
    (hjb : jb = some newId) (hnew : newId < m'.store.jobs.length) :
    Good ⟨m', b.maxJobNodes, b.nodes ++ [⟨none, jb, false⟩], b.stack,
      b.allJobs ++ [jb], some b.nodes.length, none, b.failed⟩ := by
  refine ⟨hq', ?_, ?_, hG.stackNe, hG.stackRoot, ?_, ?_, ?_, ?_⟩
  · simp only [List.length_append, List.length_cons, List.length_nil]
    omega
  · intro j hj
    rcases List.mem_append.mp hj with hj1 | hj2
    · obtain ⟨id, rfl, hid⟩ := hG.allOk j hj1
      exact ⟨id, rfl, by show id < m'.store.jobs.length ; omega⟩
    · exact ⟨newId, by rw [List.mem_singleton.mp hj2, hjb], hnew⟩
  · intro x hx
    obtain ⟨nn, rfl, h1, h2⟩ := hG.stackOk x hx
    refine ⟨nn, rfl,
      by simp only [List.length_append, List.length_cons, List.length_nil] ; omega, ?_⟩
    simp only [getNode_def]
    rw [List.getD_append _ _ _ _ h1]
    intro hgr
    obtain ⟨id, hid1, hid2⟩ := h2 hgr
    exact ⟨id, hid1, by show id < m'.store.jobs.length ; omega⟩
  · intro dn hdn
    cases hdn
  · intro ln hln
    cases hln
    refine ⟨by simp only [List.length_append, List.length_cons, List.length_nil] ; omega,
      newId, ?_, hnew⟩
    simp only [getNode_def]
    rw [List.getD_append_right _ _ _ _ (le_refl _), Nat.sub_self]
    simp [hjb]
  · intro nn hnn g
    simp only [getNode_def]
    simp only [List.length_append, List.length_cons, List.length_nil] at hnn
    rcases Nat.lt_or_ge nn b.nodes.length with hn1 | hn1
    · rw [List.getD_append _ _ _ _ hn1]
      intro hg
      obtain ⟨h1, id, h2, h3⟩ := hG.gdepOk nn hn1 g hg
      refine ⟨by simp only [List.length_append, List.length_cons, List.length_nil] ; omega,
        id, ?_, by show id < m'.store.jobs.length ; omega⟩
      rw [List.getD_append _ _ _ _ h1]
      exact h2
    · have hn1' : nn = b.nodes.length := by omega
      subst hn1'
      rw [List.getD_append_right _ _ _ _ (le_refl _), Nat.sub_self]
      intro hg
      cases hg

theorem do_spec (b : Builder) (hG : Good b) :
    ∃ b', Do b = some b' ∧ StepOk b b' ∧
      (b.maxJobNodes ≤ b.nodes.length → b'.failed = true ∧ jobsCancelled b') ∧
      (b.nodes.length < b.maxJobNodes → CleanStep b b' 1) := by
  obtain ⟨x, hx⟩ := exists_getLast b.stack hG.stackNe
  obtain ⟨n, rfl, hn1, hn2⟩ :=
    hG.stackOk x (List.mem_of_mem_getLast? (by simp [Option.mem_def, hx]))
  by_cases hcap : b.maxJobNodes ≤ b.nodes.length
  · obtain ⟨b', hrun, hlen, hq, hn', hs, ha, hl, hd, hm, hf, hmono, hcanc⟩ :=
      Fail_spec b hG.allOk
    refine ⟨b', ?_, ⟨good_congr b b' hq hlen hn' hs ha hl hd hG, hm, fun _ => hf, hmono,
        le_of_eq (congrArg List.length hn').symm, fun _ => ⟨ha, hn'⟩⟩,
      fun _ => ⟨hf, hcanc⟩, fun h => absurd hcap (by omega)⟩
    have hT : Do b = Fail b := by
      simp [Do, hx, AllocNode, hcap]
    rw [hT]
    exact hrun
  · have hq := hG.qne
    obtain ⟨hAJ2, hAJjobs, hAJqlen, hAJqne⟩ := AddJob_spec b.mgr hq
    have hslen := AddJob_store_length b.mgr hq
    have hnewlt : b.mgr.store.jobs.length < (AddJob b.mgr).1.store.jobs.length := by omega
    have happN := List.getD_append b.nodes
      [(⟨none, some b.mgr.store.jobs.length, false⟩ : BNode)] (⟨none, none, false⟩ : BNode) n hn1
    rcases hdep : b.dependency with _ | dn
    · by_cases hgr : (getNode b n).isGroup = true
      · obtain ⟨oj, hoj, hojlt⟩ := hn2 hgr
        have hgrD : (b.nodes.getD n (⟨none, none, false⟩ : BNode)).isGroup = true := hgr
        have hojD : (b.nodes.getD n (⟨none, none, false⟩ : BNode)).job = some oj := hoj
        rcases hgd : (getNode b n).groupDependency with _ | gdn
        · have hgdD : (b.nodes.getD n (⟨none, none, false⟩ : BNode)).groupDependency = none := hgd
          refine ⟨⟨⟨AddDependant (AddJob b.mgr).1.store b.mgr.store.jobs.length oj,
              (AddJob b.mgr).1.queues, (AddJob b.mgr).1.nextRoundRobinWorkerIndex⟩,
            b.maxJobNodes,
            b.nodes ++ [⟨none, some b.mgr.store.jobs.length, false⟩], b.stack,
            b.allJobs ++ [some b.mgr.store.jobs.length],
            some b.nodes.length, none, b.failed⟩, ?_, ?_, fun h => absurd h hcap, fun _ => ?_⟩
          · simp only [Do, hx, AllocNode, if_neg hcap, setNode, updStore, set_snoc, BNode.new,
              getNode_def, hdep, hAJ2, happN, hgrD, hojD, hgdD, if_true, if_false, Bool.false_eq_true]
          · refine ⟨good_do_core b hG _ _ b.mgr.store.jobs.length hAJqne
              (by simp only [AddDependant_length] ; exact hslen) rfl
              (by simp only [AddDependant_length] ; omega),
              rfl, fun h => h, fun id h => ?_, ?_, fun h => absurd h hcap⟩
            · show ((AddDependant (AddJob b.mgr).1.store b.mgr.store.jobs.length oj).get
                id).m_cancel = true
              rw [AddDependant_cancel, AddJob_cancel b.mgr hq id]
              exact h
            · simp only [List.length_append, List.length_cons, List.length_nil]
              omega
          · refine ⟨rfl, by simp only [List.length_append, List.length_cons, List.length_nil],
              fun id => ?_⟩
            show ((AddDependant (AddJob b.mgr).1.store b.mgr.store.jobs.length oj).get
              id).m_cancel = _
            rw [AddDependant_cancel, AddJob_cancel b.mgr hq id]
        · obtain ⟨hgdn, gdj, hgdj, hgdjlt⟩ := hG.gdepOk n hn1 gdn hgd
          have hgdD : (b.nodes.getD n (⟨none, none, false⟩ : BNode)).groupDependency = some gdn := hgd
          have hgdjD : (b.nodes.getD gdn (⟨none, none, false⟩ : BNode)).job = some gdj := hgdj
          have happG := List.getD_append b.nodes
            [(⟨none, some b.mgr.store.jobs.length, false⟩ : BNode)] (⟨none, none, false⟩ : BNode) gdn hgdn
          refine ⟨⟨⟨AddDependant (AddDependant (AddJob b.mgr).1.store
                b.mgr.store.jobs.length oj) gdj b.mgr.store.jobs.length,
              (AddJob b.mgr).1.queues, (AddJob b.mgr).1.nextRoundRobinWorkerIndex⟩,
            b.maxJobNodes,
            b.nodes ++ [⟨none, some b.mgr.store.jobs.length, false⟩], b.stack,
            b.allJobs ++ [some b.mgr.store.jobs.length],
            some b.nodes.length, none, b.failed⟩, ?_, ?_, fun h => absurd h hcap, fun _ => ?_⟩
          · simp only [Do, hx, AllocNode, if_neg hcap, setNode, updStore, set_snoc, BNode.new,
              getNode_def, hdep, hAJ2, happN, happG, hgrD, hojD, hgdD, hgdjD, if_true, if_false, Bool.false_eq_true]
          · refine ⟨good_do_core b hG _ _ b.mgr.store.jobs.length hAJqne
              (by simp only [AddDependant_length] ; exact hslen) rfl
              (by simp only [AddDependant_length] ; omega),
              rfl, fun h => h, fun id h => ?_, ?_, fun h => absurd h hcap⟩
            · show ((AddDependant (AddDependant (AddJob b.mgr).1.store
                b.mgr.store.jobs.length oj) gdj b.mgr.store.jobs.length).get
                id).m_cancel = true
              rw [AddDependant_cancel, AddDependant_cancel, AddJob_cancel b.mgr hq id]
              exact h
            · simp only [List.length_append, List.length_cons, List.length_nil]
              omega
          · refine ⟨rfl, by simp only [List.length_append, List.length_cons, List.length_nil],
              fun id => ?_⟩
            show ((AddDependant (AddDependant (AddJob b.mgr).1.store
              b.mgr.store.jobs.length oj) gdj b.mgr.store.jobs.length).get
              id).m_cancel = _
            rw [AddDependant_cancel, AddDependant_cancel, AddJob_cancel b.mgr hq id]
      · have hgrD : (b.nodes.getD n (⟨none, none, false⟩ : BNode)).isGroup = false := by
          cases hcc : (b.nodes.getD n (⟨none, none, false⟩ : BNode)).isGroup
          · rfl
          · exact absurd hcc hgr
        refine ⟨⟨(AddJob b.mgr).1, b.maxJobNodes,
          b.nodes ++ [⟨none, some b.mgr.store.jobs.length, false⟩], b.stack,
          b.allJobs ++ [some b.mgr.store.jobs.length],
          some b.nodes.length, none, b.failed⟩, ?_, ?_, fun h => absurd h hcap, fun _ => ?_⟩
        · simp only [Do, hx, AllocNode, if_neg hcap, setNode, updStore, set_snoc, BNode.new,
            getNode_def, hdep, hAJ2, happN, hgrD, if_true, if_false, Bool.false_eq_true]
        · refine ⟨good_do_core b hG _ _ b.mgr.store.jobs.length hAJqne hslen rfl hnewlt,
            rfl, fun h => h, fun id h => ?_, ?_, fun h => absurd h hcap⟩
          · show (((AddJob b.mgr).1.store).get id).m_cancel = true
            rw [AddJob_cancel b.mgr hq id]
            exact h
          · simp only [List.length_append, List.length_cons, List.length_nil]
            omega
        · refine ⟨rfl, by simp only [List.length_append, List.length_cons, List.length_nil],
            fun id => ?_⟩
          show (((AddJob b.mgr).1.store).get id).m_cancel = _
          exact AddJob_cancel b.mgr hq id
    · obtain ⟨hdn, dj, hdj, hdjlt⟩ := hG.depOk dn hdep
      have hdjD : (b.nodes.getD dn (⟨none, none, false⟩ : BNode)).job = some dj := hdj
      have happD := List.getD_append b.nodes
        [(⟨none, some b.mgr.store.jobs.length, false⟩ : BNode)] (⟨none, none, false⟩ : BNode) dn hdn
      by_cases hgr : (getNode b n).isGroup = true
      · obtain ⟨oj, hoj, hojlt⟩ := hn2 hgr
        have hgrD : (b.nodes.getD n (⟨none, none, false⟩ : BNode)).isGroup = true := hgr
        have hojD : (b.nodes.getD n (⟨none, none, false⟩ : BNode)).job = some oj := hoj
        rcases hgd : (getNode b n).groupDependency with _ | gdn
        · have hgdD : (b.nodes.getD n (⟨none, none, false⟩ : BNode)).groupDependency = none := hgd
          refine ⟨⟨⟨AddDependant (AddDependant (AddJob b.mgr).1.store dj
                b.mgr.store.jobs.length) b.mgr.store.jobs.length oj,
              (AddJob b.mgr).1.queues, (AddJob b.mgr).1.nextRoundRobinWorkerIndex⟩,
            b.maxJobNodes,
            b.nodes ++ [⟨none, some b.mgr.store.jobs.length, false⟩], b.stack,
            b.allJobs ++ [some b.mgr.store.jobs.length],
            some b.nodes.length, none, b.failed⟩, ?_, ?_, fun h => absurd h hcap, fun _ => ?_⟩
          · simp only [Do, hx, AllocNode, if_neg hcap, setNode, updStore, set_snoc, BNode.new,
              getNode_def, hdep, hAJ2, happN, happD, hdjD, hgrD, hojD, hgdD, if_true, if_false, Bool.false_eq_true]
          · refine ⟨good_do_core b hG _ _ b.mgr.store.jobs.length hAJqne
              (by simp only [AddDependant_length] ; exact hslen) rfl
              (by simp only [AddDependant_length] ; omega),
              rfl, fun h => h, fun id h => ?_, ?_, fun h => absurd h hcap⟩
            · show ((AddDependant (AddDependant (AddJob b.mgr).1.store dj
                b.mgr.store.jobs.length) b.mgr.store.jobs.length oj).get id).m_cancel = true
              rw [AddDependant_cancel, AddDependant_cancel, AddJob_cancel b.mgr hq id]
              exact h
            · simp only [List.length_append, List.length_cons, List.length_nil]
              omega
          · refine ⟨rfl, by simp only [List.length_append, List.length_cons, List.length_nil],
              fun id => ?_⟩
            show ((AddDependant (AddDependant (AddJob b.mgr).1.store dj
              b.mgr.store.jobs.length) b.mgr.store.jobs.length oj).get id).m_cancel = _
            rw [AddDependant_cancel, AddDependant_cancel, AddJob_cancel b.mgr hq id]
        · obtain ⟨hgdn, gdj, hgdj, hgdjlt⟩ := hG.gdepOk n hn1 gdn hgd
          have hgdD : (b.nodes.getD n (⟨none, none, false⟩ : BNode)).groupDependency = some gdn := hgd
          have hgdjD : (b.nodes.getD gdn (⟨none, none, false⟩ : BNode)).job = some gdj := hgdj
          have happG := List.getD_append b.nodes
            [(⟨none, some b.mgr.store.jobs.length, false⟩ : BNode)] (⟨none, none, false⟩ : BNode) gdn hgdn
          refine ⟨⟨⟨AddDependant (AddDependant (AddDependant (AddJob b.mgr).1.store dj
                b.mgr.store.jobs.length) b.mgr.store.jobs.length oj)
                gdj b.mgr.store.jobs.length,
              (AddJob b.mgr).1.queues, (AddJob b.mgr).1.nextRoundRobinWorkerIndex⟩,
            b.maxJobNodes,
            b.nodes ++ [⟨none, some b.mgr.store.jobs.length, false⟩], b.stack,
            b.allJobs ++ [some b.mgr.store.jobs.length],
            some b.nodes.length, none, b.failed⟩, ?_, ?_, fun h => absurd h hcap, fun _ => ?_⟩
          · simp only [Do, hx, AllocNode, if_neg hcap, setNode, updStore, set_snoc, BNode.new,
              getNode_def, hdep, hAJ2, happN, happD, happG, hdjD, hgrD, hojD, hgdD, hgdjD, if_true, if_false, Bool.false_eq_true]
          · refine ⟨good_do_core b hG _ _ b.mgr.store.jobs.length hAJqne
              (by simp only [AddDependant_length] ; exact hslen) rfl
              (by simp only [AddDependant_length] ; omega),
              rfl, fun h => h, fun id h => ?_, ?_, fun h => absurd h hcap⟩
            · show ((AddDependant (AddDependant (AddDependant (AddJob b.mgr).1.store dj
                b.mgr.store.jobs.length) b.mgr.store.jobs.length oj)
                gdj b.mgr.store.jobs.length).get id).m_cancel = true
              rw [AddDependant_cancel, AddDependant_cancel, AddDependant_cancel,
                AddJob_cancel b.mgr hq id]
              exact h
            · simp only [List.length_append, List.length_cons, List.length_nil]
              omega
          · refine ⟨rfl, by simp only [List.length_append, List.length_cons, List.length_nil],
              fun id => ?_⟩
            show ((AddDependant (AddDependant (AddDependant (AddJob b.mgr).1.store dj
              b.mgr.store.jobs.length) b.mgr.store.jobs.length oj)
              gdj b.mgr.store.jobs.length).get id).m_cancel = _
            rw [AddDependant_cancel, AddDependant_cancel, AddDependant_cancel,
              AddJob_cancel b.mgr hq id]
      · have hgrD : (b.nodes.getD n (⟨none, none, false⟩ : BNode)).isGroup = false := by
          cases hcc : (b.nodes.getD n (⟨none, none, false⟩ : BNode)).isGroup
          · rfl
          · exact absurd hcc hgr
        refine ⟨⟨⟨AddDependant (AddJob b.mgr).1.store dj b.mgr.store.jobs.length,
            (AddJob b.mgr).1.queues, (AddJob b.mgr).1.nextRoundRobinWorkerIndex⟩,
          b.maxJobNodes,
          b.nodes ++ [⟨none, some b.mgr.store.jobs.length, false⟩], b.stack,
          b.allJobs ++ [some b.mgr.store.jobs.length],
          some b.nodes.length, none, b.failed⟩, ?_, ?_, fun h => absurd h hcap, fun _ => ?_⟩
        · simp only [Do, hx, AllocNode, if_neg hcap, setNode, updStore, set_snoc, BNode.new,
            getNode_def, hdep, hAJ2, happN, happD, hdjD, hgrD, if_true, if_false, Bool.false_eq_true]
        · refine ⟨good_do_core b hG _ _ b.mgr.store.jobs.length hAJqne
            (by simp only [AddDependant_length] ; exact hslen) rfl
            (by simp only [AddDependant_length] ; omega),
            rfl, fun h => h, fun id h => ?_, ?_, fun h => absurd h hcap⟩
          · show ((AddDependant (AddJob b.mgr).1.store dj
              b.mgr.store.jobs.length).get id).m_cancel = true
            rw [AddDependant_cancel, AddJob_cancel b.mgr hq id]
            exact h
          · simp only [List.length_append, List.length_cons, List.length_nil]
            omega
        · refine ⟨rfl, by simp only [List.length_append, List.length_cons, List.length_nil],
            fun id => ?_⟩
          show ((AddDependant (AddJob b.mgr).1.store dj
            b.mgr.store.jobs.length).get id).m_cancel = _
          rw [AddDependant_cancel, AddJob_cancel b.mgr hq id]

theorem countAllocs_cons (op : BOp) (ops : List BOp) :
    countAllocs (op :: ops) = countAllocs ops + countAllocs [op] := by
  cases op <;> simp [countAllocs]

theorem applyOp_spec (b : Builder) (hG : Good b) (op : BOp) :
    ∃ b', applyOp b op = some b' ∧ StepOk b b' ∧
      (b.nodes.length + countAllocs [op] ≤ b.maxJobNodes →
        CleanStep b b' (countAllocs [op])) := by
  cases op
  · obtain ⟨b', h1, h2, _, h4⟩ := do_spec b hG
    exact ⟨b', h1, h2, fun h => h4 (by simp only [countAllocs] at h ; omega)⟩
  · obtain ⟨b', h1, h2, _, h4⟩ := together_spec b hG
    exact ⟨b', h1, h2, fun h => h4 (by simp only [countAllocs] at h ; omega)⟩
  · obtain ⟨b', h1, h2, h3⟩ := then_spec b hG
    exact ⟨b', h1, h2, fun _ => h3⟩
  · obtain ⟨b', h1, h2, h3⟩ := close_spec b hG
    exact ⟨b', h1, h2, fun _ => h3⟩

theorem runOps_spec (ops : List BOp) :
    ∀ b : Builder, Good b →
      ∃ b', runOps b ops = some b' ∧ Good b' ∧
        b'.maxJobNodes = b.maxJobNodes ∧
        (b.failed = true → b'.failed = true) ∧
        (∀ id, (b.mgr.store.get id).m_cancel = true → (b'.mgr.store.get id).m_cancel = true) ∧
        b.nodes.length ≤ b'.nodes.length ∧
        (b.maxJobNodes ≤ b.nodes.length → b'.allJobs = b.allJobs ∧ b'.nodes = b.nodes) ∧
        (b.nodes.length + countAllocs ops ≤ b.maxJobNodes →
          b'.failed = b.failed ∧ b'.nodes.length = b.nodes.length + countAllocs ops ∧
          (∀ id, (b'.mgr.store.get id).m_cancel = (b.mgr.store.get id).m_cancel)) := by
  induction ops with
  | nil =>
    intro b hG
    exact ⟨b, rfl, hG, rfl, fun h => h, fun _ h => h, le_refl _,
      fun _ => ⟨rfl, rfl⟩, fun _ => ⟨rfl, rfl, fun _ => rfl⟩⟩
  | cons op ops ih =>
    intro b hG
    obtain ⟨b1, hstep, ⟨hG1, hmax1, hf1, hc1, hle1, hex1⟩, hclean1⟩ := applyOp_spec b hG op
    obtain ⟨b', hrun, hG', hmax', hf', hc', hle', hex', hclean'⟩ := ih b1 hG1
    refine ⟨b', ?_, hG', hmax'.trans hmax1, fun h => hf' (hf1 h),
      fun id h => hc' id (hc1 id h), hle1.trans hle', ?_, ?_⟩
    · simp only [runOps, hstep]
      exact hrun
    · intro h
      obtain ⟨ha1, hn1⟩ := hex1 h
      have hex1' : b1.maxJobNodes ≤ b1.nodes.length := by
        rw [hmax1, hn1]
        exact h
      obtain ⟨ha', hn'⟩ := hex' hex1'
      exact ⟨ha'.trans ha1, hn'.trans hn1⟩
    · intro h
      rw [countAllocs_cons] at h
      obtain ⟨hfe, hne, hce⟩ := hclean1 (by omega)
      obtain ⟨hfe', hne', hce'⟩ := hclean' (by rw [hmax1, hne] ; omega)
      refine ⟨hfe'.trans hfe, ?_, fun id => (hce' id).trans (hce id)⟩
      have hcc := countAllocs_cons op ops
      omega

theorem mkBuilder_eq (mgr : Manager) (M : Nat) (hM : 1 ≤ M) :
    mkBuilder mgr M = ⟨mgr, M, [BNode.new], [some 0], [], none, none, false⟩ := by
  simp [mkBuilder, AllocNode, show ¬ M ≤ 0 by omega]

theorem good_mk (mgr : Manager) (M : Nat) (hq : mgr.queues ≠ []) (hM : 1 ≤ M) :
    Good (mkBuilder mgr M) := by
  rw [mkBuilder_eq mgr M hM]
  refine ⟨hq, by simp, by simp, by simp, rfl, ?_, ?_, ?_, ?_⟩
  · intro x hx
    rw [List.mem_singleton.mp hx]
    refine ⟨0, rfl, by simp, ?_⟩
    intro h
    simp [getNode_def, BNode.new] at h
  · intro dn hdn
    cases hdn
  · intro ln hln
    cases hln
  · intro nn hnn g hg
    simp at hnn
    subst hnn
    simp [getNode_def, BNode.new] at hg

/-- C10: for any sequence of fluent calls on a builder (positive
capacity, at least one worker), the run succeeds - in particular any
number of extra `Close` calls is safe - and the internal group stack is
never empty, with the constructor's root sentinel still at its
bottom. -/
theorem c10_stack_never_empty (mgr : Manager) (M : Nat) (ops : List BOp)
    (hq : mgr.queues ≠ []) (hM : 1 ≤ M) :
    ∃ b', runOps (mkBuilder mgr M) ops = some b' ∧
      b'.stack ≠ [] ∧ b'.stack.head? = some (some 0) := by
  obtain ⟨b', hrun, hG', _⟩ := runOps_spec ops (mkBuilder mgr M) (good_mk mgr M hq hM)
  exact ⟨b', hrun, hG'.stackNe, hG'.stackRoot⟩

/-- C10 witness: two extra `Close` calls beyond the zero matching
`Together` calls on a capacity-1 builder leave the root in place. -/
theorem c10_stack_never_empty_witness :
    ∃ b', runOps (mkBuilder mgr1 1) [.closeOp, .closeOp] = some b' ∧
      b'.stack ≠ [] ∧ b'.stack.head? = some (some 0) :=
  c10_stack_never_empty mgr1 1 [.closeOp, .closeOp] (by decide) (by omega)

/-- C2: when the node pool of a reachable builder state is exhausted,
the next `Do` or `Together` triggers `Fail`: it succeeds (returning the
builder), `Failed()` is true and every job created so far is cancelled;
and after any further sequence of fluent calls `Failed()` is still
true, the recorded job list is unchanged and every one of those jobs is
still cancelled - no call clears the failed flag or un-cancels a
job. -/
theorem c2_exhaustion_cancels_and_sticks (mgr : Manager) (M : Nat)
    (ops1 ops2 : List BOp) (op : BOp) (b : Builder)
    (hq : mgr.queues ≠ []) (hM : 1 ≤ M)
    (hrun : runOps (mkBuilder mgr M) ops1 = some b)
    (hex : M ≤ b.nodes.length)
    (hop : op = BOp.doOp ∨ op = BOp.togetherOp) :
    ∃ b1, applyOp b op = some b1 ∧ Failed b1 = true ∧ jobsCancelled b1 ∧
      ∃ b2, runOps b1 ops2 = some b2 ∧ Failed b2 = true ∧
        b2.allJobs = b1.allJobs ∧ jobsCancelled b2 := by
  obtain ⟨b', hrun', hG', hmax', _⟩ :=
    runOps_spec ops1 (mkBuilder mgr M) (good_mk mgr M hq hM)
  rw [hrun] at hrun'
  cases hrun'
  have hexb : b.maxJobNodes ≤ b.nodes.length := by
    rw [hmax', mkBuilder_eq mgr M hM]
    exact hex
  have hmain : ∃ b1, applyOp b op = some b1 ∧
      StepOk b b1 ∧ b1.failed = true ∧ jobsCancelled b1 := by
    rcases hop with rfl | rfl
    · obtain ⟨b1, h1, h2, hfail, _⟩ := do_spec b hG'
      exact ⟨b1, h1, h2, (hfail hexb).1, (hfail hexb).2⟩
    · obtain ⟨b1, h1, h2, hfail, _⟩ := together_spec b hG'
      exact ⟨b1, h1, h2, (hfail hexb).1, (hfail hexb).2⟩
  obtain ⟨b1, h1, ⟨hG1, hmax1, _, _, _, hexp⟩, hf1, hcanc1⟩ := hmain
  obtain ⟨ha1, hn1⟩ := hexp hexb
  obtain ⟨b2, hrun2, hG2, hmax2, hf2, hc2, _, hex2, _⟩ := runOps_spec ops2 b1 hG1
  have hexb1 : b1.maxJobNodes ≤ b1.nodes.length := by
    rw [hmax1, hn1]
    exact hexb
  obtain ⟨ha2, _⟩ := hex2 hexb1
  refine ⟨b1, h1, hf1, hcanc1, b2, hrun2, hf2 hf1, ha2, ?_⟩
  intro j hj
  rw [ha2] at hj
  obtain ⟨id, rfl, hcanc⟩ := hcanc1 j hj
  exact ⟨id, rfl, hc2 id hcanc⟩

/-- C2 witness: a capacity-1 builder (the root node fills the pool) on
a one-worker manager; the first `Do` triggers `Fail`, and a following
`Then` preserves the failed state. -/
theorem c2_exhaustion_witness :
    ∃ b1, applyOp (mkBuilder mgr1 1) BOp.doOp = some b1 ∧ Failed b1 = true ∧
      jobsCancelled b1 ∧
      ∃ b2, runOps b1 [BOp.thenOp] = some b2 ∧ Failed b2 = true ∧
        b2.allJobs = b1.allJobs ∧ jobsCancelled b2 :=
  c2_exhaustion_cancels_and_sticks mgr1 1 [] [BOp.thenOp] BOp.doOp
    (mkBuilder mgr1 1) (by decide) (by omega) rfl (by decide) (Or.inl rfl)

/-- C7 amended: for every build whose created nodes (the constructor's
root sentinel included) fit into the capacity, over a manager with at
least one worker and no previously cancelled state: the run succeeds,
`Failed()` is false, no created job is cancelled, and `Go()` marks
every created job ready (still uncancelled).  The further claim that a
full `assist_until_done` drain then brings every job to `done` is
refuted by `Together().Then().Do(X)`, which wires the join job and X as
mutual predecessors. -/
theorem c7_amended_no_overflow_no_fail (mgr : Manager) (M : Nat) (ops : List BOp)
    (hq : mgr.queues ≠ []) (hstore : storeUncancelled mgr)
    (hcap : 1 + countAllocs ops ≤ M) :
    ∃ b', runOps (mkBuilder mgr M) ops = some b' ∧ Failed b' = false ∧
      jobsUncancelled b' ∧
      ∃ bg, Go b' = some bg ∧ Failed bg = false ∧ jobsReady bg ∧ jobsUncancelled bg := by
  have hM : 1 ≤ M := by omega
  obtain ⟨b', hrun, hG', hmax', _, _, _, _, hclean⟩ :=
    runOps_spec ops (mkBuilder mgr M) (good_mk mgr M hq hM)
  have hmke := mkBuilder_eq mgr M hM
  obtain ⟨hfe, hne, hce⟩ := hclean (by rw [hmke] ; simpa using hcap)
  have hfail' : Failed b' = false := by
    rw [Failed, hfe, hmke]
  have hce' : ∀ id, (b'.mgr.store.get id).m_cancel = (mgr.store.get id).m_cancel := by
    intro id
    rw [hce id, hmke]
  have huncanc : jobsUncancelled b' := by
    intro j hj
    obtain ⟨id, rfl, _⟩ := hG'.allOk j hj
    exact ⟨id, rfl, by rw [hce' id] ; exact hstore id⟩
  obtain ⟨s', hready, hrlen, hrmono, hrcanc, hrall⟩ :=
    readyAll_spec b'.allJobs b'.mgr.store hG'.allOk
  refine ⟨b', hrun, hfail', huncanc,
    { b' with mgr := { b'.mgr with store := s' } }, ?_, hfail', ?_, ?_⟩
  · simp [Go, hready]
  · intro j hj
    obtain ⟨id, rfl, hr⟩ := hrall j hj
    exact ⟨id, rfl, hr⟩
  · intro j hj
    obtain ⟨id, rfl, hc⟩ := huncanc j hj
    exact ⟨id, rfl, by rw [hrcanc id] ; exact hc⟩

/-- C7 witness: `Do(A).Then().Do(B)` with capacity 4 on a one-worker
manager: no failure, nothing cancelled, and after `Go()` both jobs are
ready. -/
theorem c7_amended_witness :
    ∃ b', runOps (mkBuilder mgr1 4) [.doOp, .thenOp, .doOp] = some b' ∧
      Failed b' = false ∧ jobsUncancelled b' ∧
      ∃ bg, Go b' = some bg ∧ Failed bg = false ∧ jobsReady bg ∧ jobsUncancelled bg :=
  c7_amended_no_overflow_no_fail mgr1 4 [.doOp, .thenOp, .doOp]
    (by decide) (fun id => by rw [mgr1] ; exact rfl) (by decide)

/-- Helper: when one full scan pass of the assist-drain finds no
runnable job but reports busy workers, the state repeats, so the drain
loop never terminates whatever the fuel. -/
theorem assist_stuck (s : Store) (qs : List (List Nat)) (oj : Option Nat)
    (hscan : ScanWorkers s oj false qs = some ⟨s, qs, oj, true, false⟩) :
    ∀ fuel, AssistUntilDone fuel s qs oj = none := by
  intro fuel
  induction fuel with
  | zero => rfl
  | succ fuel ih =>
    unfold AssistUntilDone
    rw [hscan]
    simpa using ih

/-- C7 counterexample: the build `Together().Then().Do(X)` creates 3
nodes (root, group, X), within capacity 4, so by the claim's premises
`Failed()` is false and after `Go()` both the join job (id 0) and X
(id 1) are ready - yet they are mutual predecessors (each has one
outstanding dependency), no entry is ever runnable, the
`assist_until_done` drain spins forever (every scan pass reports a busy
worker and changes nothing), and neither job ever reaches `done`,
contradicting the claim that every submitted job reaches done after a
full drain. -/
theorem c7_counterexample_cyclic_build :
    ((runOps (mkBuilder mgr1 4) [.togetherOp, .thenOp, .doOp]).bind Go).isSome = true ∧
    Failed c7cycleB = false ∧
    c7cycleB.mgr.store.jobs.length = 2 ∧
    (c7cycleB.mgr.store.get 0).m_ready = true ∧
    (c7cycleB.mgr.store.get 1).m_ready = true ∧
    (c7cycleB.mgr.store.get 0).m_dependencies = 1 ∧
    (c7cycleB.mgr.store.get 1).m_dependencies = 1 ∧
    (c7cycleB.mgr.store.get 0).m_done = false ∧
    (c7cycleB.mgr.store.get 1).m_done = false ∧
    AssistUntilDone 100 c7cycleB.mgr.store c7cycleB.mgr.queues none = none := by
  refine ⟨by decide, by decide, by decide, by decide, by decide, by decide, by decide,
    by decide, by decide, ?_⟩
  exact assist_stuck c7cycleB.mgr.store c7cycleB.mgr.queues none (by decide) 100

theorem map_range_succ {α : Type} (f : Nat → α) (n : Nat) :
    (List.range (n + 1)).map f = (List.range n).map f ++ [f n] := by
  rw [List.range_succ, List.map_append]
  rfl

theorem AddDependant_get_self (s : Store) (a c : Nat) (hac : a ≠ c) (ha : a < s.jobs.length) :
    (AddDependant s a c).get a =
      { s.get a with m_dependants := (s.get a).m_dependants ++ [c] } := by
  unfold AddDependant
  rw [Store.get_update, if_neg (fun h => hac h.1.symm), Store.get_update, if_pos ⟨rfl, ha⟩]

theorem AddDependant_get_other (s : Store) (a c : Nat) (hac : a ≠ c) (hc : c < s.jobs.length) :
    (AddDependant s a c).get c =
      { s.get c with m_dependencies := (s.get c).m_dependencies + 1 } := by
  unfold AddDependant
  rw [Store.get_update, if_pos ⟨rfl, by rw [Store.length_set] ; exact hc⟩,
    Store.get_update, if_neg (fun h => hac h.1)]

theorem AddDependant_get_untouched (s : Store) (a c j : Nat) (hja : j ≠ a) (hjc : j ≠ c) :
    (AddDependant s a c).get j = s.get j := by
  unfold AddDependant
  rw [Store.get_update, if_neg (fun h => hjc h.1.symm),
    Store.get_update, if_neg (fun h => hja h.1.symm)]

theorem runOps_append (b : Builder) (l1 l2 : List BOp) :
    runOps b (l1 ++ l2) =
      match runOps b l1 with
      | none => none
      | some b1 => runOps b1 l2 := by
  induction l1 generalizing b with
  | nil => rfl
  | cons op l1 ih =>
    simp only [List.cons_append, runOps]
    cases applyOp b op
    · rfl
    · exact ih _

/-- Helper: the exact result of `Do` on a builder whose stack top is
the open group node 2 (join job 1) with captured group dependency node
1 (job 0) and a clear dependency cursor - the `Do` path taken by every
member of the `Do(P).Then().Together()` build. -/
theorem do_group_eq (b : Builder)
    (hstack : b.stack.getLast? = some (some 2))
    (hdep : b.dependency = none)
    (hn2 : b.nodes.getD 2 (⟨none, none, false⟩ : BNode) = ⟨some 1, some 1, true⟩)
    (hn1 : b.nodes.getD 1 (⟨none, none, false⟩ : BNode) = ⟨none, some 0, false⟩)
    (hq : b.mgr.queues ≠ [])
    (hcap : ¬ b.maxJobNodes ≤ b.nodes.length)
    (h1lt : 1 < b.nodes.length) (h2lt : 2 < b.nodes.length) :
    Do b = some ⟨⟨AddDependant (AddDependant (AddJob b.mgr).1.store
        b.mgr.store.jobs.length 1) 0 b.mgr.store.jobs.length,
      (AddJob b.mgr).1.queues, (AddJob b.mgr).1.nextRoundRobinWorkerIndex⟩,
      b.maxJobNodes, b.nodes ++ [⟨none, some b.mgr.store.jobs.length, false⟩],
      b.stack, b.allJobs ++ [some b.mgr.store.jobs.length],
      some b.nodes.length, none, b.failed⟩ := by
  obtain ⟨hAJ2, _, _, hAJqne⟩ := AddJob_spec b.mgr hq
  have happ1 := List.getD_append b.nodes
    [(⟨none, some b.mgr.store.jobs.length, false⟩ : BNode)] (⟨none, none, false⟩ : BNode) 1 h1lt
  have happ2 := List.getD_append b.nodes
    [(⟨none, some b.mgr.store.jobs.length, false⟩ : BNode)] (⟨none, none, false⟩ : BNode) 2 h2lt
  simp only [Do, hstack, AllocNode, if_neg hcap, setNode, updStore, set_snoc, BNode.new,
    getNode_def, hdep, hAJ2, happ1, happ2, hn1, hn2, if_true, if_false]

theorem c3_start (M : Nat) (hM : 3 ≤ M) :
    runOps (mkBuilder mgr1 M) [.doOp, .thenOp, .togetherOp] = some (c3mid M 0) := by
  have h0 : ¬ M ≤ 0 := by omega
  have h1 : ¬ M ≤ 1 := by omega
  have h2 : ¬ M ≤ 2 := by omega
  simp [runOps, applyOp, mkBuilder, Do, Then, Together, AllocNode, AddJob, PushJob,
    setNode, updStore, getNode_def, set_snoc, BNode.new, JobState.new, mgr1,
    c3mid, pSt, jSt, xSt, List.range_succ, h0, h1, h2]

theorem c3_inv_step (M i : Nat) (b : Builder) (h : 3 + i < M) (hInv : C3Inv M i b) :
    ∃ b', Do b = some b' ∧ C3Inv M (i + 1) b' := by
  obtain ⟨hmax, hslen, h0, h1, hX, hq, hnlen, hstack, hnode1, hnode2, hdep, hfail⟩ := hInv
  have hcap : ¬ b.maxJobNodes ≤ b.nodes.length := by rw [hmax, hnlen] ; omega
  have heq := do_group_eq b (by rw [hstack] ; rfl) hdep hnode2 hnode1 hq hcap
    (by omega) (by omega)
  have hsl0 := AddJob_store_length b.mgr hq
  obtain ⟨_, _, _, hAJqne⟩ := AddJob_spec b.mgr hq
  refine ⟨_, heq, hmax, ?_, ?_, ?_, ?_, hAJqne, ?_, hstack, ?_, ?_, rfl, hfail⟩
  · show (AddDependant (AddDependant (AddJob b.mgr).1.store
      b.mgr.store.jobs.length 1) 0 b.mgr.store.jobs.length).jobs.length = 2 + (i + 1)
    rw [AddDependant_length, AddDependant_length, hsl0]
    omega
  · show (AddDependant (AddDependant (AddJob b.mgr).1.store
      b.mgr.store.jobs.length 1) 0 b.mgr.store.jobs.length).get 0 = pSt (i + 1)
    rw [AddDependant_get_self _ 0 _ (by omega)
        (by rw [AddDependant_length, hsl0] ; omega),
      AddDependant_get_untouched _ _ _ 0 (by omega) (by omega),
      AddJob_store_get_lt b.mgr hq 0 (by omega), h0, hslen]
    simp [pSt, map_range_succ]
  · show (AddDependant (AddDependant (AddJob b.mgr).1.store
      b.mgr.store.jobs.length 1) 0 b.mgr.store.jobs.length).get 1 = jSt (i + 1)
    rw [AddDependant_get_untouched _ 0 _ 1 (by omega) (by omega),
      AddDependant_get_other _ _ 1 (by omega) (by rw [hsl0] ; omega),
      AddJob_store_get_lt b.mgr hq 1 (by omega), h1]
    simp [jSt]
  · intro j hj
    show (AddDependant (AddDependant (AddJob b.mgr).1.store
      b.mgr.store.jobs.length 1) 0 b.mgr.store.jobs.length).get (2 + j) = xSt j
    rcases Nat.lt_or_ge j i with hji | hji
    · rw [AddDependant_get_untouched _ 0 _ (2 + j) (by omega) (by omega),
        AddDependant_get_untouched _ _ 1 (2 + j) (by omega) (by omega),
        AddJob_store_get_lt b.mgr hq (2 + j) (by omega)]
      exact hX j hji
    · have hjeq : j = i := by omega
      rw [hjeq,
        show (2 + i) = b.mgr.store.jobs.length from hslen.symm,
        AddDependant_get_other _ 0 _ (by omega)
          (by rw [AddDependant_length, hsl0] ; omega),
        AddDependant_get_self _ _ 1 (by omega) (by rw [hsl0] ; omega),
        AddJob_store_get_new b.mgr hq]
      simp [JobState.new, xSt, hslen]
  · show (b.nodes ++ [(⟨none, some b.mgr.store.jobs.length, false⟩ : BNode)]).length = 3 + (i + 1)
    simp only [List.length_append, List.length_cons, List.length_nil]
    omega
  · show (b.nodes ++ [(⟨none, some b.mgr.store.jobs.length, false⟩ : BNode)]).getD 1 BNode.new =
      (⟨none, some 0, false⟩ : BNode)
    rw [List.getD_append _ _ _ _ (by omega)]
    exact hnode1
  · show (b.nodes ++ [(⟨none, some b.mgr.store.jobs.length, false⟩ : BNode)]).getD 2 BNode.new =
      (⟨some 1, some 1, true⟩ : BNode)
    rw [List.getD_append _ _ _ _ (by omega)]
    exact hnode2

theorem c3_iter (M : Nat) :
    ∀ (cnt i : Nat) (b : Builder), 3 + i + cnt ≤ M → C3Inv M i b →
      ∃ b', runOps b (List.replicate cnt .doOp) = some b' ∧ C3Inv M (i + cnt) b' := by
  intro cnt
  induction cnt with
  | zero =>
    intro i b _ hInv
    exact ⟨b, rfl, hInv⟩
  | succ cnt ih =>
    intro i b hle hInv
    obtain ⟨b1, heq, hInv1⟩ := c3_inv_step M i b (by omega) hInv
    obtain ⟨b', hrun, hInv'⟩ := ih (i + 1) b1 (by omega) hInv1
    refine ⟨b', ?_, by rw [show i + (cnt + 1) = i + 1 + cnt by omega] ; exact hInv'⟩
    rw [List.replicate_succ]
    simp only [runOps, applyOp, heq]
    exact hrun

/-- C3: after `Do(P).Then().Together().Do(X1)...Do(Xk).Close()` (one
worker, `k ≥ 1`, capacity at least `k + 3` so the pool is never
exhausted), with P = job 0, join = job 1 and Xi = job `1 + i`: P's
dependants are exactly the k members, each member has P registered
(its dependency counter was incremented to 1 and it appears in P's
dependant list), each member lists the group's join job as its sole
dependant, and the join's dependency counter is k - so no member is
runnable before P completes and the join is not runnable before all
members complete. -/
theorem c3_predecessor_of_group (k M : Nat) (hk : 1 ≤ k) (hM : k + 3 ≤ M) :
    ∃ b, runOps (mkBuilder mgr1 M)
        ([.doOp, .thenOp, .togetherOp] ++ (List.replicate k .doOp ++ [.closeOp])) = some b ∧
      b.mgr.store.jobs.length = 2 + k ∧
      (b.mgr.store.get 0).m_dependants = (List.range k).map (fun j => 2 + j) ∧
      (b.mgr.store.get 1).m_dependencies = (k : Int) ∧
      (∀ j, j < k →
        (2 + j) ∈ (b.mgr.store.get 0).m_dependants ∧
        (b.mgr.store.get (2 + j)).m_dependencies = 1 ∧
        (b.mgr.store.get (2 + j)).m_dependants = [1] ∧
        AreDependenciesMet (b.mgr.store.get (2 + j)) = false) ∧
      AreDependenciesMet (b.mgr.store.get 1) = false := by
  have hstart := c3_start M (by omega)
  have hInv0 : C3Inv M 0 (c3mid M 0) := by
    refine ⟨rfl, rfl, rfl, rfl, fun j hj => absurd hj (by omega),
      by simp [c3mid], rfl, rfl, rfl, rfl, rfl, rfl⟩
  obtain ⟨bF, hrun, hInvF⟩ := c3_iter M k 0 (c3mid M 0) (by omega) hInv0
  simp only [Nat.zero_add] at hInvF
  obtain ⟨hmaxF, hslenF, h0F, h1F, hXF, hqF, hnlenF, hstackF, hnode1F, hnode2F, hdepF,
    hfailF⟩ := hInvF
  have hn2D : bF.nodes.getD 2 BNode.new = (⟨some 1, some 1, true⟩ : BNode) := hnode2F
  have hgl : bF.stack.getLast? = some (some 2) := by rw [hstackF] ; rfl
  have hn2E : bF.nodes[2]?.getD BNode.new = (⟨some 1, some 1, true⟩ : BNode) := by
    rw [← List.getD_eq_getElem?_getD]
    exact hn2D
  have hclose : Close bF =
      some { bF with last := some 2, dependency := none, stack := [some 0] } := by
    simp [Close, hgl, getNode_def, hn2E, hstackF]
  refine ⟨{ bF with last := some 2, dependency := none, stack := [some 0] },
    ?_, hslenF, ?_, ?_, ?_, ?_⟩
  · rw [runOps_append, hstart]
    show runOps (c3mid M 0) (List.replicate k BOp.doOp ++ [BOp.closeOp]) = _
    rw [runOps_append, hrun]
    show runOps bF [BOp.closeOp] = _
    simp only [runOps, applyOp, hclose]
  · show (bF.mgr.store.get 0).m_dependants = _
    rw [h0F]
    rfl
  · show (bF.mgr.store.get 1).m_dependencies = _
    rw [h1F]
    rfl
  · intro j hj
    refine ⟨?_, ?_, ?_, ?_⟩
    · show (2 + j) ∈ (bF.mgr.store.get 0).m_dependants
      rw [h0F]
      simp only [pSt, List.mem_map, List.mem_range]
      exact ⟨j, hj, rfl⟩
    · show (bF.mgr.store.get (2 + j)).m_dependencies = 1
      rw [hXF j hj]
      rfl
    · show (bF.mgr.store.get (2 + j)).m_dependants = [1]
      rw [hXF j hj]
      rfl
    · show AreDependenciesMet (bF.mgr.store.get (2 + j)) = false
      rw [hXF j hj]
      rfl
  · show AreDependenciesMet (bF.mgr.store.get 1) = false
    rw [h1F]
    rfl

/-- C3 witness: the `k = 2` instance with capacity 5. -/
theorem c3_predecessor_of_group_witness :
    ∃ b, runOps (mkBuilder mgr1 5)
        ([.doOp, .thenOp, .togetherOp] ++ (List.replicate 2 .doOp ++ [.closeOp])) = some b ∧
      b.mgr.store.jobs.length = 2 + 2 ∧
      (b.mgr.store.get 0).m_dependants = (List.range 2).map (fun j => 2 + j) ∧
      (b.mgr.store.get 1).m_dependencies = (2 : Int) ∧
      (∀ j, j < 2 →
        (2 + j) ∈ (b.mgr.store.get 0).m_dependants ∧
        (b.mgr.store.get (2 + j)).m_dependencies = 1 ∧
        (b.mgr.store.get (2 + j)).m_dependants = [1] ∧
        AreDependenciesMet (b.mgr.store.get (2 + j)) = false) ∧
      AreDependenciesMet (b.mgr.store.get 1) = false :=
  c3_predecessor_of_group 2 5 (by omega) (by omega)

end jobsystem
